import Mathlib

/-!
Verification of the candidate-extraction / confidence-scoring / decision
pipeline of the IB-Company-Screening-Tool repository.

The Python modules `backend/intelligent_treasurer_system.py`,
`backend/treasurer_extractor.py` (class `SimplifiedTreasurerDetector`) and
`backend/get_10q.py` are embedded shallowly below.  Strings are modelled as
`List Char` (`Str`); Python floats are modelled as rationals (all constants in
the source are decimal literals and the claims are about order comparisons far
from any rounding boundary); the Python `re` engine is modelled by a small
executable matcher (`runs`/`reSearch`) for the search-only patterns that the
pipeline's control flow depends on, while the capture-group extraction
patterns of `extract_potential_treasurer_names` — an external-library
(`re.finditer`) service consumed by the code under scrutiny — are supplied as
an explicit oracle argument, so theorems about the surrounding logic hold for
every behaviour of that engine.
-/

set_option maxRecDepth 10000

namespace Screening

/-- Decidable equality on `Except` (raising computations), so concrete runs
of the fallible parts of the pipeline can be settled by `decide`. -/
def exceptDecEq {ε α : Type} [DecidableEq ε] [DecidableEq α] :
    (x y : Except ε α) → Decidable (x = y)
  | Except.error a, Except.error b =>
      if h : a = b then Decidable.isTrue (by rw [h])
      else Decidable.isFalse (fun hc => h (Except.error.inj hc))
  | Except.error _, Except.ok _ => Decidable.isFalse (fun hc => Except.noConfusion hc)
  | Except.ok _, Except.error _ => Decidable.isFalse (fun hc => Except.noConfusion hc)
  | Except.ok a, Except.ok b =>
      if h : a = b then Decidable.isTrue (by rw [h])
      else Decidable.isFalse (fun hc => h (Except.ok.inj hc))

instance {ε α : Type} [DecidableEq ε] [DecidableEq α] : DecidableEq (Except ε α) :=
  exceptDecEq

/-- Strings as lists of characters (Python `str`). -/
abbrev Str := List Char

/-- Conversion from Lean string literals. -/
def str (s : String) : Str := s.data

/-- The ASCII apostrophe character (written numerically). -/
def apos : Char := Char.ofNat 39

/-- The newline character. -/
def nlChar : Char := Char.ofNat 10

/-- Python `str` whitespace test (`\s`), ASCII portion: space, tab, newline,
carriage return, vertical tab, form feed. -/
def isPySpace (c : Char) : Bool :=
  c = ' ' || c = Char.ofNat 9 || c = nlChar || c = Char.ofNat 13 ||
  c = Char.ofNat 11 || c = Char.ofNat 12

/-- Python `str.lower()` (ASCII case mapping, as in all texts exercised). -/
def lower (s : Str) : Str := s.map Char.toLower

/-- Python substring test `needle in haystack`. -/
def containsSub : Str → Str → Bool
  | hay, nee =>
      nee.isPrefixOf hay ||
      match hay with
      | [] => false
      | _ :: t => containsSub t nee

/-- Python `str.strip()`: remove leading and trailing whitespace. -/
def pyStrip (s : Str) : Str :=
  ((s.dropWhile isPySpace).reverse.dropWhile isPySpace).reverse

/-- Maximal runs of characters satisfying `p` (helper for `pySplit` and
`re.findall` over a single character class). -/
def tokensByAux (p : Char → Bool) : Str → Str → List Str
  | [], acc => if acc = [] then [] else [acc.reverse]
  | c :: cs, acc =>
      if p c then tokensByAux p cs (c :: acc)
      else if acc = [] then tokensByAux p cs []
      else acc.reverse :: tokensByAux p cs []

/-- Runs of characters satisfying `p`. -/
def tokensBy (p : Char → Bool) (s : Str) : List Str := tokensByAux p s []

/-- Python `str.split()` with no argument: split on whitespace runs,
discarding empty tokens. -/
def pySplit (s : Str) : List Str := tokensBy (fun c => !isPySpace c) s

/-- Python `re.findall(r'[A-Za-z]+', s)`. -/
def alphaTokens (s : Str) : List Str := tokensBy Char.isAlpha s

/-- Python list membership `x in xs` for strings. -/
def memStr (xs : List Str) (x : Str) : Bool := xs.any (fun y => y == x)

/-- Python `str.startswith`. -/
def startsWithStr (s p : Str) : Bool := p.isPrefixOf s

/-- Python `str.endswith`. -/
def endsWithStr (s p : Str) : Bool := p.isSuffixOf s

/-! ### A small executable model of the Python `re` engine

Only the constructs appearing in the search-only patterns of the source are
supported: literal runs, optional literal runs (`(?:..)?` / `x?`), single
characters and `+` / bounded `{m,n}` repetitions of a character class, `\s+`,
`\s*`, `.*`, word boundaries `\b`, and the end anchor `$`.  Alternations
`(?:a|b)` are expanded at pattern-definition sites into explicit lists of
alternation-free disjuncts (`re.search` succeeds on the original pattern iff
it succeeds on one of the disjuncts). -/

/-- Character classes occurring in the source's patterns. -/
inductive CharCls
  | upperC   -- [A-Z]
  | lowerC   -- [a-z]
  | wordExt  -- [A-Za-z\x{C0}-\x{FF} apostrophe hyphen] of the name validator
  | urlC     -- [a-zA-Z0-9\-_]
  deriving Repr, DecidableEq

/-- Membership in a character class (Python semantics, ASCII ranges as in the
pattern text; the accented range is U+00C0 to U+00FF). -/
def clsMem : CharCls → Char → Bool
  | .upperC, c => c.isUpper
  | .lowerC, c => c.isLower
  | .wordExt, c =>
      c.isUpper || c.isLower || (decide (0xC0 ≤ c.val) && decide (c.val ≤ 0xFF)) ||
      c = apos || c = '-'
  | .urlC, c => c.isAlphanum || c = '-' || c = '_'

/-- Python `\w` (word character) for `\b` boundaries, ASCII portion. -/
def isWordChar (c : Char) : Bool := c.isAlphanum || c = '_'

/-- `\b`: true iff exactly one side of the position holds a word character
(the absent side at a string edge counts as non-word). -/
def wordBoundary (prev : Option Char) (next : Option Char) : Bool :=
  let pw := match prev with | none => false | some c => isWordChar c
  let nw := match next with | none => false | some c => isWordChar c
  pw != nw

/-- Alternation-free regex tokens. -/
inductive RTok
  | lit (cs : Str)          -- literal character run
  | litOpt (cs : Str)       -- optional literal run (`(?:cs)?`)
  | one (k : CharCls)       -- single class character
  | many (k : CharCls)      -- class character, one or more (`+`)
  | rep (k : CharCls) (lo hi : Nat)  -- bounded repetition `{lo,hi}`
  | ws1                     -- `\s+`
  | ws0                     -- `\s*`
  | dotStar                 -- `.*` (any characters except newline)
  | wordB                   -- `\b`
  | strEnd                  -- `$`
  deriving Repr

/-- All ways to consume between `lo` and `hi` (or the run length, if `hi` is
`none` or larger) leading characters satisfying `p`; each result is the
remaining suffix paired with the last consumed character (for `\b`). -/
def consumeRange (p : Char → Bool) (lo : Nat) (hi : Option Nat) (s : Str)
    (prev : Option Char) : List (Str × Option Char) :=
  let run := (s.takeWhile p).length
  let maxN := match hi with | none => run | some h => min h run
  if lo ≤ maxN then
    (List.range (maxN + 1 - lo)).map (fun j =>
      let i := lo + j
      (s.drop i, if i = 0 then prev else (s.take i).getLast?))
  else []

/-- One token of matching: all possible (suffix, previous-character) states. -/
def stepTok : RTok → Str → Option Char → List (Str × Option Char)
  | .lit cs, s, prev =>
      if cs.isPrefixOf s then
        [(s.drop cs.length, if cs.isEmpty then prev else cs.getLast?)]
      else []
  | .litOpt cs, s, prev =>
      (if cs.isPrefixOf s && !cs.isEmpty then [(s.drop cs.length, cs.getLast?)] else []) ++
      [(s, prev)]
  | .one k, s, _ =>
      match s with
      | [] => []
      | c :: r => if clsMem k c then [(r, some c)] else []
  | .many k, s, prev => consumeRange (clsMem k) 1 none s prev
  | .rep k lo hi, s, prev => consumeRange (clsMem k) lo (some hi) s prev
  | .ws1, s, prev => consumeRange isPySpace 1 none s prev
  | .ws0, s, prev => consumeRange isPySpace 0 none s prev
  | .dotStar, s, prev => consumeRange (fun c => c != nlChar) 0 none s prev
  | .wordB, s, prev => if wordBoundary prev s.head? then [(s, prev)] else []
  | .strEnd, s, prev => if s.isEmpty then [(s, prev)] else []

/-- Backtracking matcher: all reachable (suffix, previous-character) states
after matching the whole token list starting at the head of `s`. -/
def runs : List RTok → Str → Option Char → List (Str × Option Char)
  | [], s, prev => [(s, prev)]
  | t :: ts, s, prev => (stepTok t s prev).flatMap (fun sp => runs ts sp.1 sp.2)

/-- The previous character at offset `i` of `s` (for `\b` at a search start). -/
def prevCharAt (s : Str) (i : Nat) : Option Char :=
  if i = 0 then none else (s.take i).getLast?

/-- Python `re.search(pat, s)` truthiness: a match starting somewhere. -/
def reSearch (pat : List RTok) (s : Str) : Bool :=
  (List.range (s.length + 1)).any (fun i => !(runs pat (s.drop i) (prevCharAt s i)).isEmpty)

/-- Python `re.match(pat, s)` truthiness: a match anchored at the start. -/
def reMatchHere (pat : List RTok) (s : Str) : Bool := !(runs pat s none).isEmpty

/-- An alternation pattern as a list of alternation-free disjuncts:
`re.search` on the original succeeds iff it succeeds on some disjunct. -/
def reSearchDisj (ds : List (List RTok)) (s : Str) : Bool :=
  ds.any (fun p => reSearch p s)

/-- Tokens other than `\b` and `$` (their match states extend under
appending input on the right). -/
def tokPlain : RTok → Bool
  | .wordB => false
  | .strEnd => false
  | _ => true

/-- Patterns free of `\b` and `$`. -/
def patPlain (pat : List RTok) : Bool := pat.all tokPlain

/-- Minimum of a list of naturals (helper for the greedy first match). -/
def minNat : List Nat → Option Nat
  | [] => none
  | n :: ns => match minNat ns with | none => some n | some m => some (min n m)

/-- First (leftmost, then greedy-longest) matched substring, as returned by
`re.findall(pat, s)[0]` for the patterns used (no nested groups). -/
def reFindFirst (pat : List RTok) (s : Str) : Option Str :=
  (List.range (s.length + 1)).findSome? (fun i =>
    let rest := s.drop i
    let rs := runs pat rest (prevCharAt s i)
    match minNat (rs.map (fun sp => sp.1.length)) with
    | none => none
    | some m => some (rest.take (rest.length - m)))

/-! ### `RobustNameDetector` (intelligent_treasurer_system.py, lines 76-259) -/

/-- Website navigation / page-element vocabulary (`self.navigation_words`). -/
def navigation_words : List Str :=
  [str "about", str "us", str "contact", str "home", str "services",
   str "products", str "team", str "leadership", str "management",
   str "executives", str "careers", str "investors", str "news", str "media",
   str "press", str "releases", str "events", str "resources", str "support",
   str "help", str "privacy", str "terms", str "legal", str "sitemap",
   str "company", str "corporate", str "business", str "enterprise",
   str "solutions", str "technologies", str "systems", str "communications",
   str "consulting", str "capital", str "partners", str "holdings",
   str "group", str "limited", str "inc", str "corporation",
   str "incorporated", str "international", str "global", str "regional",
   str "national", str "worldwide", str "world", str "america", str "europe",
   str "asia", str "pacific", str "atlantic", str "north", str "south",
   str "east", str "west", str "central", str "united", str "states",
   str "canada", str "mexico", str "latin", str "american", str "european",
   str "asian"]

/-- Business / role vocabulary (`self.business_terms`). -/
def business_terms : List Str :=
  [str "treasurer", str "chief", str "financial", str "officer",
   str "president", str "vice", str "executive", str "director",
   str "manager", str "assistant", str "senior", str "principal",
   str "partner", str "founder", str "co-founder", str "ceo", str "cfo",
   str "cto", str "cmo", str "coo", str "svp", str "vp", str "head",
   str "lead", str "supervisor", str "coordinator", str "specialist",
   str "analyst", str "consultant", str "advisor", str "representative",
   str "associate", str "intern", str "trainee", str "apprentice"]

/-- The environment-dependent backends of the validator: spaCy NER and the
NLTK names corpus, both optional at runtime.  They can only short-circuit
acceptance, never rejection. -/
structure NameEnv where
  spacyAvail : Bool
  nerPerson : Str → Bool
  nltkAvail : Bool
  nameDb : Str → Bool

/-- The ASCII double quote character. -/
def dquote : Char := Char.ofNat 34

/-- `re.sub(r'[""]', '', name).strip()` — both class characters are the ASCII
double quote in the source bytes. -/
def nameCleanOf (name : Str) : Str :=
  pyStrip (name.filter (fun c => c != dquote))

/-- `RobustNameDetector._basic_structure_valid`. -/
def basic_structure_valid (name_clean : Str) (words : List Str) : Bool :=
  (2 ≤ words.length) &&
  words.all (fun w =>
    (match w.head? with | some c => c.isUpper | none => false) && 2 ≤ w.length) &&
  !(name_clean.any Char.isDigit) &&
  ((name_clean.filter (fun c =>
      !c.isAlphanum && !(c = ' ' || c = apos || c = '-'))).length ≤ 3)

/-- `RobustNameDetector._contains_navigation_or_business_terms`. -/
def containsNavOrBusiness (words : List Str) : Bool :=
  words.any (fun w => memStr navigation_words (lower w)) ||
  words.any (fun w => memStr business_terms (lower w))

/-- The complete-word business suffixes of `_is_company_name`. -/
def business_suffixes : List Str :=
  [str "corp", str "inc", str "llc", str "ltd", str "co", str "company",
   str "corporation"]

/-- `RobustNameDetector._is_company_name`. -/
def is_company_name (name_clean company_name : Str) : Bool :=
  let company_words := alphaTokens (lower company_name)
  let name_words := (pySplit name_clean).map lower
  (name_words.all (fun w => memStr company_words w) && !company_words.isEmpty) ||
  business_suffixes.any (fun suf => memStr name_words suf)

/-- `RobustNameDetector._name_database_validation`. -/
def name_database_validation (env : NameEnv) (words : List Str) : Bool :=
  words.any (fun w => env.nameDb (lower w))

/-- `^[A-Z][a-z]+\s+[A-Z][a-z]+$` (First Last). -/
def namePatFirstLast : List RTok :=
  [.one .upperC, .many .lowerC, .ws1, .one .upperC, .many .lowerC, .strEnd]

/-- `^[A-Z][a-z]+-[A-Z][a-z]+$` (hyphenated). -/
def namePatHyphen : List RTok :=
  [.one .upperC, .many .lowerC, .lit [Char.ofNat 45], .one .upperC,
   .many .lowerC, .strEnd]

/-- `^[A-Z][a-z]+\s+[A-Z]\'[A-Z][a-z]+$` (apostrophised). -/
def namePatApos : List RTok :=
  [.one .upperC, .many .lowerC, .ws1, .one .upperC, .lit [apos], .one .upperC,
   .many .lowerC, .strEnd]

/-- `RobustNameDetector._enhanced_regex_validation`.  The three two-word
`name_patterns` are clean ASCII and behave as regexes; the per-word fallback
`word_pattern` of the source is byte-corrupted (mojibake): its character
class reads `A-Za-z Ã €-Ã ¿ '-`, which contains the character range
U+20AC–U+00C3 with the endpoints in decreasing order, so `re.match` raises
`re.error` ("bad character range") the moment that line executes.  The
apostrophe branch after it is therefore unreachable.  Raising is modelled as
`Except.error ()`. -/
def enhanced_regex_validation (name_clean : Str) (words : List Str) :
    Except Unit Bool :=
  if words.length != 2 then Except.ok false
  else if [namePatFirstLast, namePatHyphen, namePatApos].any
            (fun p => reMatchHere p name_clean) then Except.ok true
  else Except.error ()

/-- `RobustNameDetector.is_valid_person_name`.  `name_clean` and `words` of
the source are written out as `nameCleanOf name` and
`pySplit (nameCleanOf name)`.  The early structural checks return normally;
only the regex fallback can raise (`Except.error`). -/
def is_valid_person_name (env : NameEnv) (name company_name : Str) :
    Except Unit Bool :=
  if name.length < 3 then Except.ok false
  else if !(basic_structure_valid (nameCleanOf name) (pySplit (nameCleanOf name))) then Except.ok false
  else if containsNavOrBusiness (pySplit (nameCleanOf name)) then Except.ok false
  else if is_company_name (nameCleanOf name) company_name then Except.ok false
  else if env.spacyAvail && env.nerPerson (nameCleanOf name) then Except.ok true
  else if env.nltkAvail && name_database_validation env (pySplit (nameCleanOf name)) then Except.ok true
  else enhanced_regex_validation (nameCleanOf name) (pySplit (nameCleanOf name))

/-- A runtime environment with neither spaCy nor NLTK available (the source's
documented fallback configuration). -/
def envNone : NameEnv :=
  { spacyAvail := false, nerPerson := fun _ => false,
    nltkAvail := false, nameDb := fun _ => false }

/-! ### `SimplifiedTreasurerDetector` (treasurer_extractor.py, lines 45-259)

This is the class the intelligent system holds as `self.basic_detector`. -/

/-- The word alternatives of `\b(?:since|serves?|appointed|named)\b`
(`serves?` expands to the two literals). -/
def comboTailWords : List Str :=
  [str "since", str "serves", str "serve", str "appointed", str "named"]

/-- `cfo\s+and\s+treasurer`. -/
def cfoPat1 : List RTok :=
  [.lit (str "cfo"), .ws1, .lit (str "and"), .ws1, .lit (str "treasurer")]

/-- `chief\s+financial\s+officer\s+and\s+treasurer`. -/
def cfoPat2 : List RTok :=
  [.lit (str "chief"), .ws1, .lit (str "financial"), .ws1, .lit (str "officer"),
   .ws1, .lit (str "and"), .ws1, .lit (str "treasurer")]

/-- `cfo\s*&\s*treasurer`. -/
def cfoPat3 : List RTok :=
  [.lit (str "cfo"), .ws0, .lit (str "&"), .ws0, .lit (str "treasurer")]

/-- `chief\s+financial\s+officer\s*&\s*treasurer`. -/
def cfoPat4 : List RTok :=
  [.lit (str "chief"), .ws1, .lit (str "financial"), .ws1, .lit (str "officer"),
   .ws0, .lit (str "&"), .ws0, .lit (str "treasurer")]

/-- `chief\s+financial\s+officer.*treasurer.*\bW\b`, one disjunct per tail
word `W`. -/
def cfoPat5 (w : Str) : List RTok :=
  [.lit (str "chief"), .ws1, .lit (str "financial"), .ws1, .lit (str "officer"),
   .dotStar, .lit (str "treasurer"), .dotStar, .wordB, .lit w, .wordB]

/-- `cfo.*treasurer.*\bW\b`. -/
def cfoPat6 (w : Str) : List RTok :=
  [.lit (str "cfo"), .dotStar, .lit (str "treasurer"), .dotStar, .wordB,
   .lit w, .wordB]

/-- `treasurer.*chief\s+financial\s+officer.*\bW\b`. -/
def cfoPat7 (w : Str) : List RTok :=
  [.lit (str "treasurer"), .dotStar, .lit (str "chief"), .ws1,
   .lit (str "financial"), .ws1, .lit (str "officer"), .dotStar, .wordB,
   .lit w, .wordB]

/-- `treasurer.*cfo.*\bW\b`. -/
def cfoPat8 (w : Str) : List RTok :=
  [.lit (str "treasurer"), .dotStar, .lit (str "cfo"), .dotStar, .wordB,
   .lit w, .wordB]

/-- `self.cfo_treasurer_patterns`, each entry as its alternation-free
disjunct list. -/
def cfo_treasurer_patterns : List (List (List RTok)) :=
  [[cfoPat1], [cfoPat2], [cfoPat3], [cfoPat4],
   comboTailWords.map cfoPat5, comboTailWords.map cfoPat6,
   comboTailWords.map cfoPat7, comboTailWords.map cfoPat8]

/-- `SimplifiedTreasurerDetector.is_cfo_treasurer_combo`. -/
def is_cfo_treasurer_combo (text : Str) : Bool :=
  cfo_treasurer_patterns.any (fun d => reSearchDisj d (lower text))

/-- The substring indicators of
`SimplifiedTreasurerDetector.is_outdated_info`. -/
def outdated_text_indicators : List Str :=
  [str "former treasurer", str "past treasurer", str "previously treasurer",
   str "until 201", str "until 202", str "through 201", str "through 202",
   str "ended in 201", str "ended in 202", str "left in 201", str "left in 202"]

/-- `SimplifiedTreasurerDetector.is_outdated_info`. -/
def is_outdated_info (text : Str) : Bool :=
  outdated_text_indicators.any (fun ind => containsSub (lower text) ind)

/-! ### `IntelligentTreasurerSystem`: data model and dual-role classifier -/

/-- `TreasurerCandidate` (dataclass). -/
structure TreasurerCandidate where
  name : Str
  confidence : ℚ
  source : Str
  evidence : Str
  potential_issues : List Str
  linkedin_url : Option Str := none
  deriving Repr, DecidableEq

/-- `TreasurerDetectionResult` (dataclass). -/
structure TreasurerDetectionResult where
  status : Str
  primary_treasurer : Option Str
  candidates : List TreasurerCandidate
  confidence_level : Str
  recommendation : Str
  email_strategy : Str
  deriving Repr, DecidableEq

/-- `self.HIGH_CONFIDENCE_THRESHOLD`. -/
def HIGH_CONFIDENCE_THRESHOLD : ℚ := 0.75

/-- `self.MEDIUM_CONFIDENCE_THRESHOLD`. -/
def MEDIUM_CONFIDENCE_THRESHOLD : ℚ := 0.55

/-- `self.USABLE_CONFIDENCE_THRESHOLD`. -/
def USABLE_CONFIDENCE_THRESHOLD : ℚ := 0.45

/-- `definitive_indicators` of `_is_definitive_cfo_treasurer_combo`. -/
def definitive_indicators : List Str :=
  [str "cfo and treasurer",
   str "chief financial officer and treasurer",
   str "cfo & treasurer",
   str "chief financial officer & treasurer",
   str "serves as cfo and treasurer",
   str "serves as chief financial officer and treasurer",
   str "appointed cfo and treasurer",
   str "appointed chief financial officer and treasurer",
   str "dual role of cfo and treasurer",
   str "dual role of chief financial officer and treasurer"]

/-- Literal segments separated by `.*`, the shape of the appointment and
proper-context patterns. -/
def interDotStar : List Str → List RTok
  | [] => []
  | [s] => [.lit s]
  | s :: rest => .lit s :: .dotStar :: interDotStar rest

/-- `appointment_patterns` of `_is_definitive_cfo_treasurer_combo` (each is
literal segments joined by `.*`; spaces inside a segment are literal). -/
def appointment_patterns : List (List RTok) :=
  [interDotStar [str "cfo", str "treasurer", str "appointed", str "together"],
   interDotStar [str "chief financial officer", str "treasurer", str "appointed", str "together"],
   interDotStar [str "appointed", str "cfo", str "treasurer", str "together"],
   interDotStar [str "appointed", str "chief financial officer", str "treasurer", str "together"],
   interDotStar [str "cfo", str "also", str "treasurer"],
   interDotStar [str "chief financial officer", str "also", str "treasurer"],
   interDotStar [str "cfo", str "serves", str "as", str "treasurer"],
   interDotStar [str "chief financial officer", str "serves", str "as", str "treasurer"],
   interDotStar [str "cfo", str "dual", str "role", str "treasurer"],
   interDotStar [str "chief financial officer", str "dual", str "role", str "treasurer"]]

/-- `IntelligentTreasurerSystem._is_definitive_cfo_treasurer_combo`.  The
source loops over the indicators and returns `True` for the first one present
when none of the four excluding phrases appears; afterwards it searches the
appointment patterns. -/
def is_definitive_cfo_treasurer_combo (content : Str) : Bool :=
  (definitive_indicators.any (fun ind =>
    containsSub (lower content) ind &&
    (!containsSub (lower content) (str "separate treasurer") &&
     !containsSub (lower content) (str "treasurer department") &&
     !containsSub (lower content) (str "assistant treasurer") &&
     !containsSub (lower content) (str "treasurer since")))) ||
  appointment_patterns.any (fun p => reSearch p (lower content))

/-! ### Confidence scorer (`assess_candidate_confidence` and helpers) -/

/-- `source_factors` of `assess_candidate_confidence`. -/
def source_factors : List (Str × ℚ) :=
  [(str "leadership_page", 0.25), (str "sec_filing_search", 0.20),
   (str "linkedin_search", 0.18), (str "general_exec_search", 0.15),
   (str "treasurer_search", 0.10), (str "enhanced_treasurer_search", 0.10),
   (str "broader_treasury_search", 0.12), (str "exec_team_search", 0.12),
   (str "company_treasury_search", 0.05), (str "recent_treasurer_search", 0.10)]

/-- `source_factors.get(source_name, 0.05)`. -/
def sourceFactor (source_name : Str) : ℚ :=
  (source_factors.lookup source_name).getD 0.05

/-- `outdated_indicators` of `_is_definitely_outdated`. -/
def definitely_outdated_indicators : List Str :=
  [str "former treasurer", str "past treasurer", str "previously treasurer",
   str "until 2022", str "until 2023", str "through 2022", str "through 2023",
   str "left in 2022", str "left in 2023", str "ended in 2022",
   str "ended in 2023", str "resigned in 2022", str "resigned in 2023",
   str "retired in 2022", str "retired in 2023"]

/-- `IntelligentTreasurerSystem._is_definitely_outdated`. -/
def is_definitely_outdated (context : Str) : Bool :=
  definitely_outdated_indicators.any (fun ind => containsSub (lower context) ind)

/-- `word[0].isupper()` for a split token. -/
def headUpper (w : Str) : Bool :=
  match w.head? with
  | some c => c.isUpper
  | none => false

/-- The `treasurer_indicators` f-strings of `_is_high_quality_name`, built
from the lowercased name. -/
def high_quality_indicators (nl : Str) : List Str :=
  [nl ++ str " treasurer", str "treasurer " ++ nl,
   nl ++ str " serves as treasurer", str "treasurer: " ++ nl,
   nl ++ str " appointed treasurer"]

/-- `IntelligentTreasurerSystem._is_high_quality_name`. -/
def is_high_quality_name (name context : Str) : Bool :=
  (pySplit name).length == 2 &&
  (pySplit name).all headUpper &&
  (high_quality_indicators (lower name)).any
    (fun ind => containsSub (lower context) ind)

/-- `title_suffixes` of `_is_low_quality_name`. -/
def title_suffixes : List Str :=
  [str "VP", str "CFO", str "CEO", str "CTO", str "COO", str "SVP", str "EVP"]

/-- `place_names` of `_is_low_quality_name`. -/
def place_names : List Str :=
  [str "eden", str "prairie", str "minneapolis", str "chicago", str "new york",
   str "los angeles", str "san francisco", str "atlanta", str "boston",
   str "dallas", str "houston", str "phoenix", str "denver", str "seattle",
   str "portland", str "miami", str "orlando", str "tampa", str "nashville",
   str "austin", str "columbus", str "cleveland", str "detroit",
   str "milwaukee", str "rhode island", str "texas tech", str "las colinas",
   str "orange county"]

/-- `document_terms` of `_is_low_quality_name`. -/
def document_terms : List Str :=
  [str "annual", str "report", str "table", str "contents", str "index",
   str "appendix", str "section", str "chapter", str "page", str "document",
   str "filing", str "form", str "current", str "reports", str "quarterly",
   str "monthly", str "weekly", str "treasury", str "department",
   str "division", str "group", str "team", str "fixed", str "income",
   str "equity", str "bonds", str "stocks", str "securities", str "financial",
   str "services", str "management", str "consulting", str "advisory",
   str "proxy statements", str "quarterly report", str "annual report",
   str "current reports", str "our forms", str "signature page",
   str "document number", str "filing date", str "the reporting",
   str "former foundation", str "sec form", str "table of"]

/-- `business_entities` of `_is_low_quality_name`. -/
def business_entities : List Str :=
  [str "subsidiary guarantors", str "fund administration", str "funds trust",
   str "tf trust", str "the fund", str "common stock",
   str "designated borrower", str "this indenture", str "and operations",
   str "industrial controls", str "td height", str "ps advisors",
   str "the frpc", str "bunge thunderbird", str "under armour",
   str "morgan stanley", str "goldman sachs", str "pricewaterhousecoopers",
   str "virtus stone", str "general electric", str "vick donald",
   str "materion advanced", str "se chemicals", str "related manufacturing",
   str "address of", str "on june"]

/-- `incomplete_words` of `_is_low_quality_name`. -/
def incomplete_words : List Str :=
  [str "of", str "the", str "and", str "or", str "in", str "at", str "to",
   str "for", str "with"]

/-- Document-header words of `_is_low_quality_name`. -/
def header_words : List Str :=
  [str "title", str "name", str "position", str "role", str "duty"]

/-- `job_titles` of `_is_low_quality_name`. -/
def job_titles : List Str :=
  [str "talent acquisition", str "investor relations", str "risk factors",
   str "board memberships", str "cio secretary", str "board member",
   str "proxy statements", str "quarterly reports", str "current reports"]

/-- `IntelligentTreasurerSystem._is_low_quality_name` (the source's chain of
early `return True`s, as a disjunction in the same order). -/
def is_low_quality_name (name : Str) : Bool :=
  ((pySplit name).length < 2) ||
  (title_suffixes.any (fun suf => endsWithStr name suf)) ||
  (name.length < 6) ||
  (place_names.any (fun p => containsSub (lower name) p)) ||
  (document_terms.any (fun t => containsSub (lower name) t)) ||
  (business_entities.any (fun e => containsSub (lower name) e)) ||
  ((pySplit name).length == 2 &&
    (pySplit name).all (fun w => memStr incomplete_words (lower w))) ||
  (header_words.any (fun w => containsSub (lower name) w)) ||
  (job_titles.any (fun t => containsSub (lower name) t))

/-- The 14 `treasurer_context_patterns` f-strings of
`_is_proper_treasurer_context`, as `.*`-joined literal segments. -/
def properCtxPatterns (nl : Str) : List (List Str) :=
  [[nl, str "treasurer"], [str "treasurer", nl],
   [nl, str "serves", str "treasurer"], [str "treasurer", nl, str "since"],
   [nl, str "appointed", str "treasurer"],
   [str "treasurer", nl, str "appointed"],
   [nl, str "assistant", str "treasurer"],
   [str "assistant", str "treasurer", nl],
   [str "treasurer", nl, str "vice", str "president"],
   [str "vice", str "president", str "treasurer", nl],
   [nl, str "vice", str "president", str "treasurer"],
   [str "vice", str "president", nl, str "treasurer"],
   [nl, str "principal", str "accounting", str "officer", str "treasurer"],
   [str "principal", str "accounting", str "officer", nl, str "treasurer"]]

/-- The 4 `treasurer_role_indicators` of `_is_proper_treasurer_context`. -/
def properRoleIndicators (nl : Str) : List (List Str) :=
  [[nl, str "treasurer"], [str "treasurer", nl],
   [nl, str "assistant", str "treasurer"],
   [str "assistant", str "treasurer", nl]]

/-- `IntelligentTreasurerSystem._is_proper_treasurer_context` (the name is
interpolated into the pattern verbatim; for the letter/space/hyphen names the
pipeline produces it behaves as a literal). -/
def is_proper_treasurer_context (name context : Str) : Bool :=
  ((properCtxPatterns (lower name)).any
    (fun segs => reSearch (interDotStar segs) (lower context))) ||
  ((properRoleIndicators (lower name)).any
    (fun segs => reSearch (interDotStar segs) (lower context)))

/-- `business_entity_indicators` of `assess_candidate_confidence`. -/
def business_entity_indicators : List Str :=
  [str "subsidiary", str "guarantors", str "fund", str "trust", str "stock",
   str "borrower", str "indenture", str "operations", str "controls",
   str "height", str "advisors", str "thunderbird", str "armour",
   str "stanley", str "sachs", str "pricewaterhouse", str "stone",
   str "electric", str "chemicals", str "manufacturing", str "address"]

/-- Python `max(a, b)` on rationals (kernel-reducible). -/
def qmax (a b : ℚ) : ℚ := if a ≤ b then b else a

/-- Python `min(a, b)` on rationals (kernel-reducible). -/
def qmin (a b : ℚ) : ℚ := if a ≤ b then a else b

/-- `max(0.0, min(1.0, confidence))`. -/
def clamp01 (q : ℚ) : ℚ := qmax 0 (qmin 1 q)

/-- The additive confidence tally of `assess_candidate_confidence` before
clipping, in the source's order of updates. -/
def rawConfidence (name context source_name : Str) : ℚ :=
  0.15 + sourceFactor source_name
  + (if containsSub (lower context) (str "current") ||
        containsSub (lower context) (str "serves as") then 0.10 else 0)
  + (if containsSub (lower context) (str "assistant treasurer") then 0.08 else 0)
  + (if containsSub (lower context) (str "treasurer") &&
        containsSub (lower context) (str "since") then 0.15 else 0)
  + (if containsSub (lower context) (str "appointed") &&
        containsSub (lower context) (str "treasurer") then 0.12 else 0)
  + (if [str "executive", str "officer", str "management"].any
        (fun w => containsSub (lower context) w) then 0.03 else 0)
  + (if source_name == str "leadership_page" then 0.10 else 0)
  + (if is_proper_treasurer_context name context then 0.20 else 0)
  - (if is_outdated_info context then 0.08 else 0)
  - (if is_definitely_outdated context then 0.25 else 0)
  - (if containsSub (lower context) (str "linkedin") then 0.02 else 0)
  - (if [str "former", str "past", str "previous", str "until"].any
        (fun w => containsSub (lower context) w) then 0.12 else 0)
  - (if containsSub (lower context) (str "cfo") &&
        containsSub (lower context) (str "treasurer") then 0.03 else 0)
  - (if memStr [str "treasurer_search", str "company_treasury_search"]
        source_name then 0.02 else 0)
  + (if is_high_quality_name name context then 0.08 else 0)
  - (if is_low_quality_name name then 0.20 else 0)
  - (if business_entity_indicators.any
        (fun w => containsSub (lower name) w) then 0.15 else 0)

/-- The issue tags appended by `assess_candidate_confidence`, in source
order. -/
def issuesOf (name context source_name : Str) : List Str :=
  (if is_outdated_info context then [str "potentially_outdated"] else []) ++
  (if is_definitely_outdated context then [str "definitely_outdated"] else []) ++
  (if containsSub (lower context) (str "linkedin") then [str "linkedin_snippet"] else []) ++
  (if [str "former", str "past", str "previous", str "until"].any
      (fun w => containsSub (lower context) w) then [str "past_role_indicator"] else []) ++
  (if containsSub (lower context) (str "cfo") &&
      containsSub (lower context) (str "treasurer") then [str "dual_role_mention"] else []) ++
  (if memStr [str "treasurer_search", str "company_treasury_search"]
      source_name then [str "search_result_uncertainty"] else []) ++
  (if business_entity_indicators.any
      (fun w => containsSub (lower name) w) then [str "business_entity"] else [])

/-- `IntelligentTreasurerSystem.assess_candidate_confidence`. -/
def assess_candidate_confidence (name context source_name : Str) : ℚ × List Str :=
  (clamp01 (rawConfidence name context source_name), issuesOf name context source_name)

/-- The two context-independent penalties of the scorer (low-quality name,
business-entity token in the name).  They hit both sides of any same-name
comparison identically. -/
def namePenalty (name : Str) : ℚ :=
  (if is_low_quality_name name then (0.20 : ℚ) else 0) +
  (if business_entity_indicators.any
      (fun w => containsSub (lower name) w) then (0.15 : ℚ) else 0)

/-! ### Context and LinkedIn extraction -/

/-- First index of `nee` in `hay` (case-sensitive); the callers pass
lowercased strings to model `re.IGNORECASE` literal search. -/
def findSubIdx (hay nee : Str) : Option Nat :=
  (List.range (hay.length + 1)).find? (fun i => nee.isPrefixOf (hay.drop i))

/-- `IntelligentTreasurerSystem.extract_context_around_name`: a ±100
character window around the first (case-insensitive) occurrence, stripped. -/
def extract_context_around_name (name content : Str) : Str :=
  match findSubIdx (lower content) (lower name) with
  | none => []
  | some i =>
      let start := i - 100
      let stop := min content.length (i + name.length + 100)
      pyStrip ((content.drop start).take (stop - start))

/-- `https?://(?:www\.)?linkedin\.com/in/[a-zA-Z0-9\-_]+`. -/
def linkedinPat : List RTok :=
  [.lit (str "http"), .litOpt (str "s"), .lit (str "://"),
   .litOpt (str "www."), .lit (str "linkedin.com/in/"), .many .urlC]

/-- `IntelligentTreasurerSystem.extract_linkedin_url`: the first LinkedIn URL
within ±250 characters of the first occurrence of the name. -/
def extract_linkedin_url (name content : Str) : Option Str :=
  match findSubIdx (lower content) (lower name) with
  | none => none
  | some i =>
      let start := i - 250
      let stop := min content.length (i + name.length + 250)
      reFindFirst linkedinPat ((content.drop start).take (stop - start))

/-- `IntelligentTreasurerSystem.analyze_treasurer_mention`: score the mention
and drop it below the hard floor of 0.3.  `company_name` is accepted and
unused, as in the source. -/
def analyze_treasurer_mention (name content _company_name source_name : Str) :
    Option TreasurerCandidate :=
  if (assess_candidate_confidence name (extract_context_around_name name content)
        source_name).1 < 0.3 then none
  else some
    { name := name
      confidence := (assess_candidate_confidence name
        (extract_context_around_name name content) source_name).1
      source := source_name
      evidence :=
        if 200 < (extract_context_around_name name content).length then
          (extract_context_around_name name content).take 200 ++ str "..."
        else extract_context_around_name name content
      potential_issues := (assess_candidate_confidence name
        (extract_context_around_name name content) source_name).2
      linkedin_url := extract_linkedin_url name content }

/-! ### Name extraction (`extract_potential_treasurer_names`)

The two regex pattern tables (43 `enhanced_patterns` and the basic
detector's 15 `treasurer_name_patterns`) are applied through `re.finditer`
with capture groups — that engine is supplied as an oracle (`ReEnv`) indexed
by the pattern's position in its table; theorems about the rest of the
pipeline hold for every oracle.  The group-combination logic that the
repository itself implements is embedded faithfully below. -/

/-- The `re.finditer` oracle: for a pattern index and a content string, the
list of matches, each as its tuple of capture groups. -/
structure ReEnv where
  finditerEnhanced : Nat → Str → List (List (Option Str))
  finditerBasic : Nat → Str → List (List (Option Str))

/-- Number of entries of `enhanced_patterns`
(intelligent_treasurer_system.py lines 512-596). -/
def numEnhancedPatterns : Nat := 43

/-- Number of entries of `self.basic_detector.treasurer_name_patterns`
(treasurer_extractor.py lines 64-102). -/
def numBasicPatterns : Nat := 15

/-- Python `str.islower()` restricted to ASCII: at least one cased character
and no uppercase one. -/
def pyIsLower (s : Str) : Bool :=
  s.any Char.isAlpha && s.all (fun c => !c.isUpper)

/-- The group-combination rule shared by both extraction loops: one group is
the name, two groups are joined "first last", three or more take the first
group that looks like a capitalized two-word name.  (The patterns in both
tables have at most two groups, so the last branch is never exercised by the
real tables; unmatched optional groups there are skipped.) -/
def nameFromGroups (groups : List (Option Str)) : Option Str :=
  if groups.length == 1 then
    match groups with
    | [some g] => some (pyStrip g)
    | _ => none
  else if groups.length == 2 then
    match groups with
    | [some a, some b] => some (pyStrip a ++ [' '] ++ pyStrip b)
    | _ => none
  else if 3 ≤ groups.length then
    ((groups.filterMap id).map pyStrip).find? (fun cand =>
      !cand.isEmpty && (pySplit cand).length == 2 &&
      (pySplit cand).all (fun w =>
        w.length ≤ 1 || (headUpper w && pyIsLower (w.drop 1))))
  else none

/-- Remove duplicates keeping first occurrences.  The source's
`list(set(potential_names))` has an unspecified (hash-randomised) order; the
pipeline's later per-name processing is order-sensitive only through the
aggregator, so the embedding fixes encounter order. -/
def dedupStr (l : List Str) : List Str :=
  l.foldl (fun acc x => if memStr acc x then acc else acc ++ [x]) []

/-- The assembled (possibly absent) names of both pattern tables in the
source's iteration order, before the `if name and is_valid_person_name`
filter. -/
def rawNames (re : ReEnv) (content : Str) : List (Option Str) :=
  ((List.range numEnhancedPatterns).flatMap (fun i =>
      (re.finditerEnhanced i content).map nameFromGroups)) ++
  ((List.range numBasicPatterns).flatMap (fun i =>
      (re.finditerBasic i content).map nameFromGroups))

/-- The extraction loops' per-name step: skip absent or empty names (`if
name and ...` short-circuits before the validator), keep validated ones, and
propagate the first exception the validator raises. -/
def collectValidated (env : NameEnv) (company_name : Str) :
    List (Option Str) → Except Unit (List Str)
  | [] => Except.ok []
  | none :: rest => collectValidated env company_name rest
  | some nm :: rest =>
      if nm.isEmpty then collectValidated env company_name rest
      else
        match is_valid_person_name env nm company_name with
        | Except.error e => Except.error e
        | Except.ok true =>
            match collectValidated env company_name rest with
            | Except.error e => Except.error e
            | Except.ok l => Except.ok (nm :: l)
        | Except.ok false => collectValidated env company_name rest

/-- `IntelligentTreasurerSystem.extract_potential_treasurer_names`: run every
pattern of both tables, assemble and validate each match's name, deduplicate.
A `re.error` raised by the validator's corrupted fallback pattern propagates
(there is no `try` around these loops). -/
def extract_potential_treasurer_names (re : ReEnv) (env : NameEnv)
    (content company_name : Str) : Except Unit (List Str) :=
  match collectValidated env company_name (rawNames re content) with
  | Except.error e => Except.error e
  | Except.ok l => Except.ok (dedupStr l)

/-- `IntelligentTreasurerSystem.analyze_source_for_candidates`: a blob with a
definitive CFO+Treasurer combination contributes no candidates at all;
otherwise every validated extracted name is scored.  Exceptions raised during
extraction propagate. -/
def analyze_source_for_candidates (re : ReEnv) (env : NameEnv)
    (content company_name source_name : Str) :
    Except Unit (List TreasurerCandidate) :=
  if is_cfo_treasurer_combo content && is_definitive_cfo_treasurer_combo content then
    Except.ok []
  else
    match extract_potential_treasurer_names re env content company_name with
    | Except.error e => Except.error e
    | Except.ok names =>
        Except.ok (names.filterMap
          (fun nm => analyze_treasurer_mention nm content company_name source_name))

/-! ### Aggregator / deduplicator (`extract_candidates_from_sources`) -/

/-- `candidate.name.lower().strip()`, the merge key. -/
def nameKey (c : TreasurerCandidate) : Str := pyStrip (lower c.name)

/-- The in-place update of an already-seen candidate: evidence is appended
(new excerpt truncated to 100 characters) and confidence is raised to the
maximum.  Issues and all other fields are kept from the existing record. -/
def mergeEvidence (existing : TreasurerCandidate) (source_name : Str)
    (cand : TreasurerCandidate) : TreasurerCandidate :=
  { existing with
    evidence := existing.evidence ++ str " | Additional from " ++ source_name ++
      str ": " ++ cand.evidence.take 100 ++ str "..."
    confidence := qmax existing.confidence cand.confidence }

/-- Update the first (unique) record with the given key, as
`next(c for c in candidates if ...)` does. -/
def updateFirst (key : Str) (source_name : Str) (cand : TreasurerCandidate) :
    List TreasurerCandidate → List TreasurerCandidate
  | [] => []
  | c :: rest =>
      if nameKey c == key then mergeEvidence c source_name cand :: rest
      else c :: updateFirst key source_name cand rest

/-- One step of the aggregation loop body (lines 412-428): drop low-quality
names, insert unseen keys, merge seen ones. -/
def addCandidate (acc : List TreasurerCandidate) (source_name : Str)
    (cand : TreasurerCandidate) : List TreasurerCandidate :=
  if is_low_quality_name cand.name then acc
  else if acc.any (fun c => nameKey c == nameKey cand) then
    updateFirst (nameKey cand) source_name cand acc
  else acc ++ [cand]

/-- The aggregation loop over all (source, candidate) pairs in encounter
order. -/
def aggregatePairs (pairs : List (Str × TreasurerCandidate)) :
    List TreasurerCandidate :=
  pairs.foldl (fun acc p => addCandidate acc p.1 p.2) []

/-- Python's stable `candidates.sort(key=confidence, reverse=True)`:
insertion sort with the reflexive descending-confidence relation is stable
and orders by descending confidence. -/
def pyStableSortDesc (l : List TreasurerCandidate) : List TreasurerCandidate :=
  List.insertionSort (fun a b => b.confidence ≤ a.confidence) l

/-- The per-source candidate pairs in source order, skipping empty blobs
(`if not content: continue`); an exception in any source's analysis aborts
the whole loop. -/
def perSourcePairs (re : ReEnv) (env : NameEnv) (company_name : Str) :
    List (Str × Str) → Except Unit (List (Str × TreasurerCandidate))
  | [] => Except.ok []
  | sc :: rest =>
      if sc.2.isEmpty then perSourcePairs re env company_name rest
      else
        match analyze_source_for_candidates re env sc.2 company_name sc.1 with
        | Except.error e => Except.error e
        | Except.ok cands =>
            match perSourcePairs re env company_name rest with
            | Except.error e => Except.error e
            | Except.ok pairs => Except.ok (cands.map (fun c => (sc.1, c)) ++ pairs)

/-- The aggregation loop followed by the final descending stable sort:
lines 400-431 on the flattened (source, candidate) stream. -/
def aggregate_and_rank (pairs : List (Str × TreasurerCandidate)) :
    List TreasurerCandidate :=
  pyStableSortDesc (aggregatePairs pairs)

/-- `IntelligentTreasurerSystem.extract_candidates_from_sources` (the
`sources` dict in Python 3.7+ iterates in insertion order, modelled as an
association list).  There is no exception handling in this method either, so
a raise from the validator propagates past the aggregation loop. -/
def extract_candidates_from_sources (re : ReEnv) (env : NameEnv)
    (sources : List (Str × Str)) (company_name : Str) :
    Except Unit (List TreasurerCandidate) :=
  match perSourcePairs re env company_name sources with
  | Except.error e => Except.error e
  | Except.ok pairs => Except.ok (aggregate_and_rank pairs)

/-- Observable of the aggregator: the confidence recorded for a normalized
name key (via the first — by key uniqueness, only — record with that key). -/
def keyConf (l : List TreasurerCandidate) (k : Str) : Option ℚ :=
  (l.find? (fun c => nameKey c == k)).map (fun c => c.confidence)

/-- Merge a confidence into an optional running maximum. -/
def omax (a : Option ℚ) (q : ℚ) : Option ℚ :=
  some (match a with | none => q | some m => qmax m q)

/-- The running maximum of the confidences of the non-low-quality candidates
with the given key, over the flattened (source, candidate) stream. -/
def foldMaxConf (pairs : List (Str × TreasurerCandidate)) (k : Str)
    (init : Option ℚ) : Option ℚ :=
  pairs.foldl
    (fun a p =>
      if is_low_quality_name p.2.name = false ∧ nameKey p.2 = k then
        omax a p.2.confidence
      else a)
    init

/-- Pairwise-distinct normalized name keys. -/
def keysUnique (l : List TreasurerCandidate) : Prop :=
  (l.map nameKey).Pairwise (fun a b => a ≠ b)

/-! ### Decision engine (`build_detection_result`) -/

/-- `', '.join(...)`. -/
def joinComma : List Str → Str
  | [] => []
  | [x] => x
  | x :: rest => x ++ str ", " ++ joinComma rest

/-- `IntelligentTreasurerSystem.build_detection_result`: the five-state
classifier, in the source's precedence order. -/
def build_detection_result (candidates : List TreasurerCandidate)
    (_company_name : Str) : TreasurerDetectionResult :=
  match candidates with
  | [] =>
      { status := str "none_found"
        primary_treasurer := none
        candidates := []
        confidence_level := str "low"
        recommendation := str "Contact company directly for treasurer information"
        email_strategy := str "use_cfo_only" }
  | top :: rest =>
      if (top :: rest).any (fun c => memStr c.potential_issues (str "dual_role_mention")) then
        { status := str "cfo_treasurer_combo"
          primary_treasurer := some (str "same")
          candidates := top :: rest
          confidence_level := str "high"
          recommendation := str "CFO handles treasurer duties"
          email_strategy := str "use_cfo_only" }
      else if decide (HIGH_CONFIDENCE_THRESHOLD ≤ top.confidence) &&
              ((top :: rest).length == 1 ||
                (match rest with
                 | r :: _ => decide (r.confidence < MEDIUM_CONFIDENCE_THRESHOLD)
                 | [] => true)) then
        { status := str "single_confident"
          primary_treasurer := some top.name
          candidates := top :: rest
          confidence_level := str "high"
          recommendation := str "High confidence: " ++ top.name ++ str " is the treasurer"
          email_strategy := str "use_treasurer" }
      else if decide (MEDIUM_CONFIDENCE_THRESHOLD ≤ top.confidence) &&
              (top :: rest).length == 1 then
        { status := str "single_confident"
          primary_treasurer := some top.name
          candidates := top :: rest
          confidence_level := str "medium"
          recommendation := str "Medium confidence: " ++ top.name ++ str " is likely the treasurer"
          email_strategy := str "use_treasurer" }
      else if decide (MEDIUM_CONFIDENCE_THRESHOLD ≤ top.confidence) &&
              1 < (top :: rest).length &&
              (match rest with
               | r :: _ => decide ((1 : ℚ)/10 ≤ top.confidence - r.confidence)
               | [] => false) then
        { status := str "single_confident"
          primary_treasurer := some top.name
          candidates := top :: rest
          confidence_level := str "medium"
          recommendation := str "Likely treasurer: " ++ top.name ++ str " (significant confidence gap)"
          email_strategy := str "use_treasurer" }
      else if 1 < ((top :: rest).filter
              (fun c => decide (USABLE_CONFIDENCE_THRESHOLD ≤ c.confidence))).length then
        { status := str "multiple_candidates"
          primary_treasurer := none
          candidates := top :: rest
          confidence_level := str "medium"
          recommendation := str "Multiple possible treasurers found: " ++
            joinComma ((((top :: rest).filter
              (fun c => decide (USABLE_CONFIDENCE_THRESHOLD ≤ c.confidence))).take 3).map
                (fun c => c.name)) ++ str " - review LinkedIn profiles to verify"
          email_strategy := str "use_cfo_only" }
      else if decide (MEDIUM_CONFIDENCE_THRESHOLD ≤ top.confidence) then
        { status := str "uncertain"
          primary_treasurer := some top.name
          candidates := top :: rest
          confidence_level := str "medium"
          recommendation := str "Likely treasurer: " ++ top.name ++ str " (verify with LinkedIn profile)"
          email_strategy :=
            if top.potential_issues.any (fun i =>
                i == str "past_role_indicator" || i == str "potentially_outdated") then
              str "use_cfo_only"
            else str "use_treasurer" }
      else
        { status := str "uncertain"
          primary_treasurer := none
          candidates := top :: rest
          confidence_level := str "low"
          recommendation := str "Treasurer information unclear - contact company for confirmation"
          email_strategy := str "use_cfo_only" }

/-- The composed pipeline on already-fetched blobs: steps 2 and 3 of
`detect_treasurer_candidates` (which also has no exception handler). -/
def detect_from_sources (re : ReEnv) (env : NameEnv)
    (sources : List (Str × Str)) (company_name : Str) :
    Except Unit TreasurerDetectionResult :=
  match extract_candidates_from_sources re env sources company_name with
  | Except.error e => Except.error e
  | Except.ok cands => Except.ok (build_detection_result cands company_name)

/-- An oracle whose `re.finditer` returns no matches (adequate wherever the
extraction stage is unreachable or its output irrelevant). -/
def reNone : ReEnv :=
  { finditerEnhanced := fun _ _ => [], finditerBasic := fun _ _ => [] }

/-! ### Facility extraction error handling (get_10q.py, lines 403-680)

`process_with_llm` and `extract_facilities_robust` consume two external
collaborators: the chat-completion client (whose call either returns a raw
string or raises) and `json.loads` (which parses the brace-delimited slice or
raises).  Both are supplied as arguments; the repository's own control flow —
the brace search, the error dictionaries, the try/except routing and the
full-content/filtered-content retry — is embedded below.  File output
(`output_file`) is omitted. -/

/-- A JSON value (the shape `json.loads` can return). -/
inductive JVal
  | jnull
  | jbool (b : Bool)
  | jnum (n : Int)
  | jstr (s : Str)
  | jarr (elems : List JVal)
  | jobj (fields : List (Str × JVal))

/-- Python truthiness of a JSON value. -/
def pyTruthy : JVal → Bool
  | .jnull => false
  | .jbool b => b
  | .jnum n => n != 0
  | .jstr s => !s.isEmpty
  | .jarr l => !l.isEmpty
  | .jobj l => !l.isEmpty

/-- `dict.get(key)` on an object (None when absent); the callers guard the
non-dict case separately. -/
def jget : JVal → Str → Option JVal
  | .jobj fields, k => fields.lookup k
  | _, _ => none

/-- The opening brace character. -/
def lbrace : Char := Char.ofNat 123

/-- The closing brace character. -/
def rbrace : Char := Char.ofNat 125

/-- `re.search(r'\x7b[\s\S]*\x7d', raw)`: the greedy match runs from the
first opening brace to the last closing brace after it; `None` when no such
pair exists. -/
def find_json (raw : Str) : Option Str :=
  match raw.findIdx? (fun c => c = lbrace) with
  | none => none
  | some i =>
      match raw.reverse.findIdx? (fun c => c = rbrace) with
      | none => none
      | some jr =>
          if i < raw.length - 1 - jr then
            some ((raw.drop i).take (raw.length - 1 - jr - i + 1))
          else none

/-- The `{"facilities": [], "notes": [], "error": e}` dictionary built on
every failure path. -/
def errorResult (e : Str) : JVal :=
  .jobj [(str "facilities", .jarr []), (str "notes", .jarr []),
    (str "error", .jstr e)]

/-- `process_with_llm(text, client, model)` as a function of the completion
outcome (`Except` error message or raw response) and of `json.loads`. -/
def process_with_llm (llm : Except Str Str) (loads : Str → Except Str JVal) : JVal :=
  match llm with
  | .error e => errorResult e
  | .ok rawResponse =>
      match find_json (pyStrip rawResponse) with
      | none => errorResult (str "No JSON found in response")
      | some s =>
          match loads s with
          | .ok j => j
          | .error e => errorResult e

/-- `if result and not result.get("error")` — the guard of the first
attempt.  On a non-dict truthy result the `.get` call raises and the
surrounding `except` routes to the fallback, so only truthy dictionaries
without a truthy error entry short-circuit. -/
def attempt1Keeps (r : JVal) : Bool :=
  pyTruthy r &&
    (match r with
     | .jobj fields =>
         (match fields.lookup (str "error") with
          | none => true
          | some v => !pyTruthy v)
     | _ => false)

/-- `extract_facilities_robust`: try the full content, fall back to the
filtered content.  `llm1` and `llm2` are the outcomes of the two completion
calls (full prompt and filtered prompt). -/
def extract_facilities_robust (llm1 llm2 : Except Str Str)
    (loads : Str → Except Str JVal) : JVal :=
  if attempt1Keeps (process_with_llm llm1 loads) then process_with_llm llm1 loads
  else process_with_llm llm2 loads

/-- An attempt fails when the completion call raises, no JSON object is
found in the response, or `json.loads` raises on the matched slice. -/
def attemptFails (llm : Except Str Str) (loads : Str → Except Str JVal) : Prop :=
  match llm with
  | .error _ => True
  | .ok raw =>
      find_json (pyStrip raw) = none ∨
      ∃ s e, find_json (pyStrip raw) = some s ∧ loads s = .error e

/-! ### Concrete fixtures for counterexamples and witnesses -/

/-- A blob carrying the definitive dual-role phrase. -/
def comboBlob : Str := str "John Smith is the CFO and Treasurer"

/-- A single-candidate fixture at confidence 0.6 (above MEDIUM, below HIGH). -/
def medCand : TreasurerCandidate :=
  { name := str "Jane Doe", confidence := 0.6, source := str "s",
    evidence := str "e", potential_issues := [], linkedin_url := none }

/-- Duplicate-name fixtures with distinct issue tags for the merge claims. -/
def dupCandA : TreasurerCandidate :=
  { name := str "John Smith", confidence := 0.5, source := str "s1",
    evidence := str "E1", potential_issues := [str "a"], linkedin_url := none }

/-- Same normalized name as `dupCandA`, different issues and evidence. -/
def dupCandB : TreasurerCandidate :=
  { name := str "John Smith", confidence := 0.6, source := str "s2",
    evidence := str "E2", potential_issues := [str "b"], linkedin_url := none }

/-- A blob whose extracted name is filtered as low quality. -/
def lowQualityBlob : Str := str "Annual Report serves as Treasurer"

/-- An oracle behaving as `re.finditer` does on `lowQualityBlob`: the
pattern `([A-Z][a-z]+\s+[A-Z][a-z]+)\s+serves\s+as\s+...treasurer` family
yields the single name "Annual Report"; the duplicate hits of overlapping
patterns are irrelevant after deduplication. -/
def reLowQuality : ReEnv :=
  { finditerEnhanced := fun i c =>
      if i = 0 && c == lowQualityBlob then [[some (str "Annual Report")]] else []
    finditerBasic := fun _ _ => [] }

/-- A clean leadership-page blob naming a treasurer. -/
def janeBlob : Str := str "Jane Doe serves as Treasurer"

/-- The `re.finditer` behaviour on `janeBlob`. -/
def reJane : ReEnv :=
  { finditerEnhanced := fun i c =>
      if i = 0 && c == janeBlob then [[some (str "Jane Doe")]] else []
    finditerBasic := fun _ _ => [] }

/-- The explicit dated leadership-page phrasing of claim C5, appended to a
name. -/
def leadershipCtx (name : Str) : Str :=
  name ++ str " serves as Treasurer since 2023"

/-- The candidate the pipeline produces from `janeBlob` on the leadership
page channel (confidence 0.88 = base 0.15 + source 0.25 + serves-as 0.10 +
official-page 0.10 + proper-context 0.20 + high-quality 0.08). -/
def janeCand : TreasurerCandidate :=
  { name := str "Jane Doe", confidence := 22/25,
    source := str "leadership_page", evidence := janeBlob,
    potential_issues := [], linkedin_url := none }

/-- The full detection result the pipeline produces from `janeBlob` on the
leadership-page channel (single candidate above the HIGH threshold). -/
def janeResult : TreasurerDetectionResult :=
  { status := str "single_confident"
    primary_treasurer := some (str "Jane Doe")
    candidates := [janeCand]
    confidence_level := str "high"
    recommendation := str "High confidence: Jane Doe is the treasurer"
    email_strategy := str "use_treasurer" }

/-! ### Theorems -/

/-! #### Matcher lemmas -/

theorem containsSub_nil (n : Str) : containsSub [] n = n.isPrefixOf [] := by
  show (n.isPrefixOf [] || false) = n.isPrefixOf []
  simp

theorem containsSub_cons (c : Char) (t n : Str) :
    containsSub (c :: t) n = (n.isPrefixOf (c :: t) || containsSub t n) := rfl

theorem containsSub_exists {s w : Str} (h : containsSub s w = true) :
    ∃ a b, s = a ++ (w ++ b) := by
  induction s with
  | nil =>
      rw [containsSub_nil] at h
      cases w with
      | nil => exact ⟨[], [], rfl⟩
      | cons c t => simp [List.isPrefixOf] at h
  | cons c t ih =>
      rw [containsSub_cons] at h
      rcases Bool.or_eq_true_iff.mp h with hpre | hrec
      · obtain ⟨b, hb⟩ := List.isPrefixOf_iff_prefix.mp hpre
        exact ⟨[], b, hb.symm⟩
      · obtain ⟨a, b, hab⟩ := ih hrec
        exact ⟨c :: a, b, by rw [hab]; rfl⟩

theorem containsSub_append_right {a b n : Str} (h : containsSub b n = true) :
    containsSub (a ++ b) n = true := by
  induction a with
  | nil => simpa using h
  | cons c t ih =>
      rw [List.cons_append, containsSub_cons, ih]
      simp

theorem containsSub_of_prefix {s n : Str} (h : n.isPrefixOf s = true) :
    containsSub s n = true := by
  cases s with
  | nil => rw [containsSub_nil, h]
  | cons c t => rw [containsSub_cons, h]; rfl

theorem takeWhile_length_le_append (p : Char → Bool) (w t : Str) :
    (w.takeWhile p).length ≤ ((w ++ t).takeWhile p).length := by
  induction w with
  | nil => simp
  | cons c w ih =>
      by_cases hp : p c
      · simp [List.takeWhile_cons, hp, ih]
      · simp [List.takeWhile_cons, hp]

theorem consumeRange_extend {p : Char → Bool} {lo : Nat} {hi : Option Nat}
    {w t : Str} {prev : Option Char} {s1 : Str} {p1 : Option Char}
    (h : (s1, p1) ∈ consumeRange p lo hi w prev) :
    (s1 ++ t, p1) ∈ consumeRange p lo hi (w ++ t) prev := by
  unfold consumeRange at h ⊢
  set runw := (w.takeWhile p).length with hrunw
  set runwt := ((w ++ t).takeWhile p).length with hrunwt
  have hrun : runw ≤ runwt := takeWhile_length_le_append p w t
  have hrw : runw ≤ w.length := by
    rw [hrunw]; exact (List.takeWhile_prefix p).length_le
  rcases hhi : hi with _ | hval
  all_goals (rw [hhi] at h)
  case _ =>
    by_cases hle : lo ≤ runw
    · rw [if_pos hle] at h
      simp only [List.mem_map, List.mem_range] at h
      obtain ⟨j, hj, heq⟩ := h
      rw [if_pos (le_trans hle hrun)]
      simp only [List.mem_map, List.mem_range]
      refine ⟨j, by omega, ?_⟩
      have hiw : lo + j ≤ w.length := by omega
      have hdrop : (w ++ t).drop (lo + j) = w.drop (lo + j) ++ t := by
        rw [List.drop_append_eq_append_drop]
        have : lo + j - w.length = 0 := by omega
        rw [this, List.drop_zero]
      have htake : (w ++ t).take (lo + j) = w.take (lo + j) := by
        rw [List.take_append_eq_append_take]
        have : lo + j - w.length = 0 := by omega
        rw [this, List.take_zero, List.append_nil]
      rw [hdrop, htake]
      have h1 := congrArg Prod.fst heq
      have h2 := congrArg Prod.snd heq
      simp only at h1 h2
      rw [← h1, ← h2]
    · rw [if_neg hle] at h
      simp at h
  case _ =>
    by_cases hle : lo ≤ min hval runw
    · rw [if_pos hle] at h
      simp only [List.mem_map, List.mem_range] at h
      obtain ⟨j, hj, heq⟩ := h
      have hle2 : lo ≤ min hval runwt := by omega
      rw [if_pos hle2]
      simp only [List.mem_map, List.mem_range]
      refine ⟨j, by omega, ?_⟩
      have hiw : lo + j ≤ w.length := by omega
      have hdrop : (w ++ t).drop (lo + j) = w.drop (lo + j) ++ t := by
        rw [List.drop_append_eq_append_drop]
        have : lo + j - w.length = 0 := by omega
        rw [this, List.drop_zero]
      have htake : (w ++ t).take (lo + j) = w.take (lo + j) := by
        rw [List.take_append_eq_append_take]
        have : lo + j - w.length = 0 := by omega
        rw [this, List.take_zero, List.append_nil]
      rw [hdrop, htake]
      have h1 := congrArg Prod.fst heq
      have h2 := congrArg Prod.snd heq
      simp only at h1 h2
      rw [← h1, ← h2]
    · rw [if_neg hle] at h
      simp at h

theorem stepTok_extend {tok : RTok} {w t : Str} {prev : Option Char}
    {s1 : Str} {p1 : Option Char}
    (hplain : tokPlain tok = true)
    (h : (s1, p1) ∈ stepTok tok w prev) :
    (s1 ++ t, p1) ∈ stepTok tok (w ++ t) prev := by
  cases tok with
  | lit cs =>
      simp only [stepTok] at h ⊢
      by_cases hpre : cs.isPrefixOf w
      · rw [if_pos hpre] at h
        have hpre2 : cs.isPrefixOf (w ++ t) = true := by
          rw [List.isPrefixOf_iff_prefix] at hpre ⊢
          exact hpre.trans (List.prefix_append w t)
        rw [if_pos hpre2]
        have hlen : cs.length ≤ w.length :=
          (List.isPrefixOf_iff_prefix.mp hpre).length_le
        have hdrop : (w ++ t).drop cs.length = w.drop cs.length ++ t := by
          rw [List.drop_append_eq_append_drop]
          have : cs.length - w.length = 0 := by omega
          rw [this, List.drop_zero]
        simp only [List.mem_singleton] at h
        simp only [List.mem_singleton, hdrop]
        have h1 := congrArg Prod.fst h
        have h2 := congrArg Prod.snd h
        simp only at h1 h2
        rw [← h1, ← h2]
      · rw [if_neg hpre] at h
        simp at h
  | litOpt cs =>
      simp only [stepTok] at h ⊢
      rw [List.mem_append] at h ⊢
      rcases h with h | h
      · left
        by_cases hc : cs.isPrefixOf w ∧ ¬cs.isEmpty
        · rw [if_pos (by simp [hc.1, hc.2])] at h
          have hpre2 : cs.isPrefixOf (w ++ t) = true := by
            rw [List.isPrefixOf_iff_prefix] at hc ⊢
            exact hc.1.trans (List.prefix_append w t)
          rw [if_pos (by simp [hpre2]; exact fun hh => (hc.2 (by simpa using hh)).elim)]
          have hlen : cs.length ≤ w.length :=
            (List.isPrefixOf_iff_prefix.mp hc.1).length_le
          have hdrop : (w ++ t).drop cs.length = w.drop cs.length ++ t := by
            rw [List.drop_append_eq_append_drop]
            have : cs.length - w.length = 0 := by omega
            rw [this, List.drop_zero]
          simp only [List.mem_singleton] at h
          simp only [List.mem_singleton, hdrop]
          have h1 := congrArg Prod.fst h
          have h2 := congrArg Prod.snd h
          simp only at h1 h2
          rw [← h1, ← h2]
        · rw [if_neg (by intro hh; exact hc (by constructor <;> simp_all))] at h
          simp at h
      · simp only [List.mem_singleton] at h
        right
        simp only [List.mem_singleton]
        have h1 := congrArg Prod.fst h
        have h2 := congrArg Prod.snd h
        simp only at h1 h2
        rw [← h1, ← h2]
  | one k =>
      simp only [stepTok] at h ⊢
      cases w with
      | nil => simp at h
      | cons c r =>
          by_cases hk : clsMem k c
          · simp only [hk, if_true, List.cons_append, List.mem_singleton] at h ⊢
            have h1 := congrArg Prod.fst h
            have h2 := congrArg Prod.snd h
            simp only at h1 h2
            rw [← h1, ← h2]
          · simp [hk] at h
  | many k =>
      simp only [stepTok] at h ⊢
      exact consumeRange_extend h
  | rep k lo hi =>
      simp only [stepTok] at h ⊢
      exact consumeRange_extend h
  | ws1 =>
      simp only [stepTok] at h ⊢
      exact consumeRange_extend h
  | ws0 =>
      simp only [stepTok] at h ⊢
      exact consumeRange_extend h
  | dotStar =>
      simp only [stepTok] at h ⊢
      exact consumeRange_extend h
  | wordB => simp [tokPlain] at hplain
  | strEnd => simp [tokPlain] at hplain

theorem runs_extend {pat : List RTok} (hplain : patPlain pat = true) (t : Str) :
    ∀ {w : Str} {prev : Option Char} {rem : Str} {p : Option Char},
      (rem, p) ∈ runs pat w prev → (rem ++ t, p) ∈ runs pat (w ++ t) prev := by
  induction pat with
  | nil =>
      intro w prev rem p h
      simp only [runs, List.mem_singleton] at h ⊢
      have h1 := congrArg Prod.fst h
      have h2 := congrArg Prod.snd h
      simp only at h1 h2
      rw [← h1, ← h2]
  | cons tok ts ih =>
      intro w prev rem p h
      have hsplit : tokPlain tok = true ∧ patPlain ts = true := by
        unfold patPlain at hplain ⊢
        simpa [List.all_cons, Bool.and_eq_true] using hplain
      obtain ⟨hhead, htail⟩ := hsplit
      simp only [runs, List.mem_flatMap] at h ⊢
      obtain ⟨⟨s1, p1⟩, hstep, hrest⟩ := h
      exact ⟨⟨s1 ++ t, p1⟩, stepTok_extend hhead hstep, ih htail hrest⟩

theorem reSearch_of_contains {pat : List RTok} {w s : Str}
    (hplain : patPlain pat = true)
    (hw : ∀ prev, runs pat w prev ≠ [])
    (hsub : containsSub s w = true) : reSearch pat s = true := by
  obtain ⟨a, b, hs⟩ := containsSub_exists hsub
  obtain ⟨⟨rem, p⟩, hmem⟩ :=
    List.exists_mem_of_ne_nil _ (hw (prevCharAt s a.length))
  have h2 : (rem ++ b, p) ∈ runs pat (w ++ b) (prevCharAt s a.length) :=
    runs_extend hplain b hmem
  unfold reSearch
  rw [List.any_eq_true]
  refine ⟨a.length, List.mem_range.mpr ?_, ?_⟩
  · rw [hs]
    simp [List.length_append]
    omega
  · have hdrop : s.drop a.length = w ++ b := by
      rw [hs, List.drop_left]
    rw [hdrop]
    have : runs pat (w ++ b) (prevCharAt s a.length) ≠ [] :=
      List.ne_nil_of_mem h2
    simpa [List.isEmpty_iff] using this

/-- Any text whose lowercase form contains "cfo and treasurer" satisfies the
basic detector's first dual-role pattern. -/
theorem combo_of_phrase {content : Str}
    (h : containsSub (lower content) (str "cfo and treasurer") = true) :
    is_cfo_treasurer_combo content = true := by
  unfold is_cfo_treasurer_combo
  rw [List.any_eq_true]
  refine ⟨[cfoPat1], ?_, ?_⟩
  · unfold cfo_treasurer_patterns
    exact List.mem_cons_self _ _
  · unfold reSearchDisj
    rw [List.any_eq_true]
    refine ⟨cfoPat1, List.mem_cons_self _ _, ?_⟩
    refine reSearch_of_contains (by decide) (fun prev => ?_) h
    rw [show runs cfoPat1 (str "cfo and treasurer") prev = [([], some 'r')] from rfl]
    simp

/-- Any text whose lowercase form contains "cfo and treasurer" and none of
the four excluding phrases is classified as a definitive combination. -/
theorem definitive_of_phrase {content : Str}
    (h : containsSub (lower content) (str "cfo and treasurer") = true)
    (h1 : containsSub (lower content) (str "separate treasurer") = false)
    (h2 : containsSub (lower content) (str "treasurer department") = false)
    (h3 : containsSub (lower content) (str "assistant treasurer") = false)
    (h4 : containsSub (lower content) (str "treasurer since") = false) :
    is_definitive_cfo_treasurer_combo content = true := by
  unfold is_definitive_cfo_treasurer_combo
  rw [Bool.or_eq_true]
  left
  rw [List.any_eq_true]
  refine ⟨str "cfo and treasurer", ?_, ?_⟩
  · unfold definitive_indicators
    exact List.mem_cons_self _ _
  · rw [h, h1, h2, h3, h4]
    rfl

/-- C1 (counterexample).  The claim demands `status = "cfo_treasurer_combo"`
whenever some channel's text contains the definitive phrase
"〈Name〉 is the CFO and Treasurer".  On the single-channel input
"John Smith is the CFO and Treasurer" the definitive classifier makes that
channel contribute *zero* candidates, so the pipeline returns
`status = "none_found"`, not `"cfo_treasurer_combo"` (the combo status is
reachable only through a surviving candidate tagged `dual_role_mention`). -/
theorem C1_counterexample :
    (detect_from_sources reNone envNone [(str "leadership_page", comboBlob)]
      (str "Acme Corp")).map (fun r => r.status) = Except.ok (str "none_found") ∧
    (detect_from_sources reNone envNone [(str "leadership_page", comboBlob)]
      (str "Acme Corp")).map (fun r => r.status) ≠
        Except.ok (str "cfo_treasurer_combo") := by
  refine ⟨by with_unfolding_all decide, by with_unfolding_all decide⟩

/-- C1 (amended).  A channel whose text contains a definitive dual-role
phrase (lowercase "cfo and treasurer" with none of the four excluding
phrases) contributes zero candidates, and when it is the only channel the
pipeline returns `status = "none_found"` with
`email_strategy = "use_cfo_only"` — for every regex oracle and validator
environment, regardless of any other candidate present in the same blob. -/
theorem C1_definitive_combo_suppresses (re : ReEnv) (env : NameEnv)
    (company source_name content : Str)
    (h : containsSub (lower content) (str "cfo and treasurer") = true)
    (h1 : containsSub (lower content) (str "separate treasurer") = false)
    (h2 : containsSub (lower content) (str "treasurer department") = false)
    (h3 : containsSub (lower content) (str "assistant treasurer") = false)
    (h4 : containsSub (lower content) (str "treasurer since") = false) :
    analyze_source_for_candidates re env content company source_name =
      Except.ok [] ∧
    detect_from_sources re env [(source_name, content)] company =
      Except.ok
        { status := str "none_found"
          primary_treasurer := none
          candidates := []
          confidence_level := str "low"
          recommendation := str "Contact company directly for treasurer information"
          email_strategy := str "use_cfo_only" } := by
  have hc := combo_of_phrase h
  have hd := definitive_of_phrase h h1 h2 h3 h4
  have ha : analyze_source_for_candidates re env content company source_name =
      Except.ok [] := by
    unfold analyze_source_for_candidates
    rw [hc, hd]
    rfl
  have hp : perSourcePairs re env company [(source_name, content)] =
      Except.ok [] := by
    unfold perSourcePairs
    split
    · rfl
    · rw [ha]
      rfl
  have hr : detect_from_sources re env [(source_name, content)] company =
      Except.ok (build_detection_result [] company) := by
    unfold detect_from_sources extract_candidates_from_sources
    rw [hp]
    rfl
  exact ⟨ha, by rw [hr]; rfl⟩

/-- C1 (witness for the amended theorem). -/
theorem C1_definitive_combo_suppresses_witness :
    analyze_source_for_candidates reNone envNone comboBlob (str "Acme Corp")
      (str "leadership_page") = Except.ok [] ∧
    detect_from_sources reNone envNone [(str "leadership_page", comboBlob)]
      (str "Acme Corp") =
      Except.ok
        { status := str "none_found"
          primary_treasurer := none
          candidates := []
          confidence_level := str "low"
          recommendation := str "Contact company directly for treasurer information"
          email_strategy := str "use_cfo_only" } :=
  C1_definitive_combo_suppresses reNone envNone (str "Acme Corp")
    (str "leadership_page") comboBlob (by decide) (by decide) (by decide)
    (by decide) (by decide)

/-- C7 (confirmed).  When every channel contributes an empty text blob, the
pipeline (a total function — no exception is possible) returns the
`none_found` result with a null primary and the `use_cfo_only` strategy, for
every regex oracle and validator environment. -/
theorem C7_all_empty_none_found (re : ReEnv) (env : NameEnv)
    (sources : List (Str × Str)) (company : Str)
    (h : ∀ p ∈ sources, p.2 = ([] : Str)) :
    detect_from_sources re env sources company =
      Except.ok
        { status := str "none_found"
          primary_treasurer := none
          candidates := []
          confidence_level := str "low"
          recommendation := str "Contact company directly for treasurer information"
          email_strategy := str "use_cfo_only" } := by
  have hp : perSourcePairs re env company sources = Except.ok [] := by
    induction sources with
    | nil => rfl
    | cons a t ih =>
        have ha : a.2 = [] := h a (List.mem_cons_self a t)
        have ht : ∀ p ∈ t, p.2 = ([] : Str) := fun p hp2 => h p (List.mem_cons_of_mem a hp2)
        unfold perSourcePairs
        rw [ha]
        exact ih ht
  unfold detect_from_sources extract_candidates_from_sources
  rw [hp]
  rfl

/-- C7 (witness): two empty channels. -/
theorem C7_all_empty_none_found_witness :
    detect_from_sources reNone envNone
      [(str "leadership_page", str ""), (str "treasurer_search", str "")]
      (str "Acme Corp") =
      Except.ok
        { status := str "none_found"
          primary_treasurer := none
          candidates := []
          confidence_level := str "low"
          recommendation := str "Contact company directly for treasurer information"
          email_strategy := str "use_cfo_only" } :=
  C7_all_empty_none_found reNone envNone _ _ (by decide)

/-- C2 (counterexample).  The claim requires `primary_treasurer` to be null
or the name of a candidate with confidence at least the HIGH (0.75)
threshold.  A single candidate at confidence 0.6 yields `single_confident`
with that candidate as primary even though 0.6 < 0.75. -/
theorem C2_counterexample :
    ¬ ((build_detection_result [medCand] (str "Acme Corp")).primary_treasurer = none ∨
      ∃ c ∈ (build_detection_result [medCand] (str "Acme Corp")).candidates,
        (build_detection_result [medCand] (str "Acme Corp")).primary_treasurer = some c.name ∧
        HIGH_CONFIDENCE_THRESHOLD ≤ c.confidence) := by
  with_unfolding_all decide

/-- C2 (amended).  `primary_treasurer` is null, or the `"same"` sentinel (the
dual-role state), or the name of a member of `candidates` whose confidence is
at least the MEDIUM (0.55) threshold. -/
theorem C2_primary_invariant (cands : List TreasurerCandidate) (company : Str) :
    (build_detection_result cands company).primary_treasurer = none ∨
    (build_detection_result cands company).primary_treasurer = some (str "same") ∨
    ∃ c ∈ (build_detection_result cands company).candidates,
      (build_detection_result cands company).primary_treasurer = some c.name ∧
      MEDIUM_CONFIDENCE_THRESHOLD ≤ c.confidence := by
  have hmh : MEDIUM_CONFIDENCE_THRESHOLD ≤ HIGH_CONFIDENCE_THRESHOLD := by
    unfold MEDIUM_CONFIDENCE_THRESHOLD HIGH_CONFIDENCE_THRESHOLD
    norm_num
  cases cands with
  | nil => left; rfl
  | cons top rest =>
      simp only [build_detection_result]
      split
      · right; left; rfl
      · split
        · rename_i hcond
          right; right
          refine ⟨top, List.mem_cons_self _ _, rfl, ?_⟩
          simp only [Bool.and_eq_true, decide_eq_true_eq] at hcond
          exact le_trans hmh hcond.1
        · split
          · rename_i hcond
            right; right
            refine ⟨top, List.mem_cons_self _ _, rfl, ?_⟩
            simp only [Bool.and_eq_true, decide_eq_true_eq] at hcond
            exact hcond.1
          · split
            · rename_i hcond
              right; right
              refine ⟨top, List.mem_cons_self _ _, rfl, ?_⟩
              simp only [Bool.and_eq_true, decide_eq_true_eq] at hcond
              exact hcond.1.1
            · split
              · left; rfl
              · split
                · rename_i hcond
                  right; right
                  refine ⟨top, List.mem_cons_self _ _, rfl, ?_⟩
                  simp only [decide_eq_true_eq] at hcond
                  exact hcond
                · left; rfl

/-- C3 (counterexample).  Merging two candidates with equal normalized names
keeps the maximum confidence and appends the evidence, but does *not* union
the issue sets: the second candidate's issue `"b"` is lost. -/
theorem C3_counterexample :
    aggregate_and_rank [(str "s1", dupCandA), (str "s2", dupCandB)] =
      [{ name := str "John Smith", confidence := 0.6, source := str "s1",
         evidence := str "E1 | Additional from s2: E2...",
         potential_issues := [str "a"], linkedin_url := none }] ∧
    memStr dupCandB.potential_issues (str "b") = true ∧
    ((aggregate_and_rank [(str "s1", dupCandA), (str "s2", dupCandB)]).all
      (fun c => !memStr c.potential_issues (str "b"))) = true := by
  refine ⟨by with_unfolding_all decide, by decide, by with_unfolding_all decide⟩

/-- C3 (amended).  On a merge of two equal-key candidates the retained record
keeps the maximum of the two confidences and the original evidence with the
new excerpt appended (100-character bound and ellipsis), but its issue set is
the *first* candidate's issue set — the second one's issues are discarded. -/
theorem C3_merge_shape (s1 s2 : Str) (c1 c2 : TreasurerCandidate)
    (hk : nameKey c1 = nameKey c2)
    (h1 : is_low_quality_name c1.name = false)
    (h2 : is_low_quality_name c2.name = false) :
    aggregate_and_rank [(s1, c1), (s2, c2)] =
      [{ c1 with
          confidence := qmax c1.confidence c2.confidence,
          evidence := c1.evidence ++ str " | Additional from " ++ s2 ++ str ": " ++
            c2.evidence.take 100 ++ str "..." }] := by
  unfold aggregate_and_rank aggregatePairs
  simp only [List.foldl]
  unfold addCandidate
  simp only [h1, h2, Bool.false_eq_true, if_false, List.any_nil, List.any_cons,
    Bool.or_false, List.nil_append]
  have hkb : (nameKey c1 == nameKey c2) = true := beq_iff_eq.mpr hk
  simp only [hkb, if_true]
  unfold updateFirst
  simp only [hkb, if_true]
  rfl

/-- C3 (witness for the amended theorem). -/
theorem C3_merge_shape_witness :
    aggregate_and_rank [(str "s1", dupCandA), (str "s2", dupCandB)] =
      [{ dupCandA with
          confidence := qmax dupCandA.confidence dupCandB.confidence,
          evidence := dupCandA.evidence ++ str " | Additional from " ++ str "s2" ++
            str ": " ++ dupCandB.evidence.take 100 ++ str "..." }] :=
  C3_merge_shape (str "s1") (str "s2") dupCandA dupCandB (by decide) (by decide)
    (by decide)

/-- C9 (counterexample).  The claim states that whenever every *alphabetic*
token of the candidate appears among the alphabetic tokens of the company
name (and the company has at least one token), `is_valid_person_name` returns
`False`.  The hyphenated candidate "Smith-Jones Ab" against company
"Smith Jones Ab Corp" satisfies exactly that hypothesis — its alphabetic
tokens are smith, jones, ab, all tokens of the company — yet the validator
does *not* return `False`: the code compares *whitespace-split* candidate
tokens (here "smith-jones", "ab") against the company tokens, so the subset
test fails, the candidate falls through to the regex fallback, the three
clean two-word patterns all fail on it, and the fallback then compiles the
byte-corrupted `word_pattern`, whose reversed character range makes
`re.match` raise `re.error` — the call terminates with an exception instead
of a boolean. -/
theorem C9_counterexample :
    ((alphaTokens (lower (str "Smith-Jones Ab"))).all
        (fun t => memStr (alphaTokens (lower (str "Smith Jones Ab Corp"))) t) = true) ∧
    alphaTokens (lower (str "Smith Jones Ab Corp")) ≠ [] ∧
    is_valid_person_name envNone (str "Smith-Jones Ab") (str "Smith Jones Ab Corp") =
      Except.error () := by
  refine ⟨by decide, by decide, by decide⟩

/-- C9 (amended).  For every candidate and company name such that every
*whitespace-separated* token of the cleaned candidate, lowercased, appears
among the alphabetic tokens of the company name, and the company name has at
least one alphabetic token, `is_valid_person_name` returns `False` normally
(the company-collision check precedes the exception-prone regex fallback, so
no `re.error` can intervene) — for every NER / name-database environment. -/
theorem C9_company_collision_rejected (env : NameEnv) (name company : Str)
    (hsub : ((pySplit (nameCleanOf name)).map lower).all
        (fun w => memStr (alphaTokens (lower company)) w) = true)
    (hne : (alphaTokens (lower company)).isEmpty = false) :
    is_valid_person_name env name company = Except.ok false := by
  have hc : is_company_name (nameCleanOf name) company = true := by
    unfold is_company_name
    simp only [hsub, hne, Bool.not_false, Bool.and_self, Bool.true_or,
      Bool.true_and, Bool.or_eq_true]
  unfold is_valid_person_name
  rw [hc]
  split
  · rfl
  · split
    · rfl
    · split
      · rfl
      · rfl

/-- C9 (witness for the amended theorem): "Acme Global" against
"Acme Global Industries" is rejected. -/
theorem C9_company_collision_rejected_witness :
    is_valid_person_name envNone (str "Acme Global") (str "Acme Global Industries") =
      Except.ok false :=
  C9_company_collision_rejected envNone (str "Acme Global")
    (str "Acme Global Industries") (by decide) (by decide)

/-! #### Aggregator invariants -/

theorem le_qmax_left (a b : ℚ) : a ≤ qmax a b := by
  unfold qmax
  split
  · assumption
  · exact le_refl a

theorem le_qmax_right (a b : ℚ) : b ≤ qmax a b := by
  unfold qmax
  split
  · exact le_refl b
  · exact le_of_not_le (by assumption)

theorem qmax_eq_max (a b : ℚ) : qmax a b = max a b := by
  unfold qmax
  rw [max_def]

theorem nameKey_mergeEvidence (y : TreasurerCandidate) (s : Str)
    (c : TreasurerCandidate) : nameKey (mergeEvidence y s c) = nameKey y := rfl

theorem confidence_mergeEvidence (y : TreasurerCandidate) (s : Str)
    (c : TreasurerCandidate) :
    (mergeEvidence y s c).confidence = qmax y.confidence c.confidence := rfl

theorem updateFirst_map_nameKey (key s : Str) (cand : TreasurerCandidate) :
    ∀ l, (updateFirst key s cand l).map nameKey = l.map nameKey := by
  intro l
  induction l with
  | nil => rfl
  | cons c rest ih =>
      unfold updateFirst
      split
      · simp [nameKey_mergeEvidence]
      · simp [ih]

theorem updateFirst_all {P : TreasurerCandidate → Prop} {key s : Str}
    {cand : TreasurerCandidate}
    (hm : ∀ y s2 c2, P y → P (mergeEvidence y s2 c2)) :
    ∀ {l}, (∀ y ∈ l, P y) → ∀ x ∈ updateFirst key s cand l, P x := by
  intro l
  induction l with
  | nil => intro _ x hx; simp [updateFirst] at hx
  | cons c rest ih =>
      intro hl x hx
      unfold updateFirst at hx
      split at hx
      · rcases List.mem_cons.mp hx with h | h
        · rw [h]; exact hm _ _ _ (hl c (List.mem_cons_self _ _))
        · exact hl x (List.mem_cons_of_mem _ h)
      · rcases List.mem_cons.mp hx with h | h
        · rw [h]; exact hl c (List.mem_cons_self _ _)
        · exact ih (fun y hy => hl y (List.mem_cons_of_mem _ hy)) x h

theorem addCandidate_all {P : TreasurerCandidate → Prop} {acc : List TreasurerCandidate}
    {s : Str} {cand : TreasurerCandidate}
    (hm : ∀ y s2 c2, P y → P (mergeEvidence y s2 c2))
    (hacc : ∀ y ∈ acc, P y)
    (hcand : is_low_quality_name cand.name = false → P cand) :
    ∀ x ∈ addCandidate acc s cand, P x := by
  intro x hx
  unfold addCandidate at hx
  split at hx
  · exact hacc x hx
  · split at hx
    · exact updateFirst_all hm hacc x hx
    · rcases List.mem_append.mp hx with h | h
      · exact hacc x h
      · rw [List.mem_singleton.mp h]
        exact hcand (by rename_i hlq _; simpa using hlq)

theorem aggregate_foldl_all {P : TreasurerCandidate → Prop}
    (hm : ∀ y s2 c2, P y → P (mergeEvidence y s2 c2)) :
    ∀ (pairs : List (Str × TreasurerCandidate)) (acc : List TreasurerCandidate),
      (∀ y ∈ acc, P y) →
      (∀ p ∈ pairs, is_low_quality_name p.2.name = false → P p.2) →
      ∀ x ∈ List.foldl (fun a p => addCandidate a p.1 p.2) acc pairs, P x := by
  intro pairs
  induction pairs with
  | nil => intro acc hacc _ x hx; exact hacc x hx
  | cons p rest ih =>
      intro acc hacc hps x hx
      rw [List.foldl_cons] at hx
      refine ih (addCandidate acc p.1 p.2) ?_ ?_ x hx
      · exact addCandidate_all hm hacc (hps p (List.mem_cons_self _ _))
      · exact fun q hq => hps q (List.mem_cons_of_mem _ hq)

theorem aggregatePairs_all {P : TreasurerCandidate → Prop}
    {pairs : List (Str × TreasurerCandidate)}
    (hm : ∀ y s2 c2, P y → P (mergeEvidence y s2 c2))
    (hps : ∀ p ∈ pairs, is_low_quality_name p.2.name = false → P p.2) :
    ∀ x ∈ aggregatePairs pairs, P x :=
  aggregate_foldl_all hm pairs [] (by intro y hy; simp at hy) hps

theorem mem_pyStableSortDesc {x : TreasurerCandidate} {l : List TreasurerCandidate} :
    x ∈ pyStableSortDesc l ↔ x ∈ l :=
  (List.perm_insertionSort _ l).mem_iff

theorem aggregate_and_rank_all {P : TreasurerCandidate → Prop}
    {pairs : List (Str × TreasurerCandidate)}
    (hm : ∀ y s2 c2, P y → P (mergeEvidence y s2 c2))
    (hps : ∀ p ∈ pairs, is_low_quality_name p.2.name = false → P p.2) :
    ∀ x ∈ aggregate_and_rank pairs, P x := by
  intro x hx
  exact aggregatePairs_all hm hps x (mem_pyStableSortDesc.mp hx)

theorem build_candidates_eq (l : List TreasurerCandidate) (comp : Str) :
    (build_detection_result l comp).candidates = l := by
  cases l with
  | nil => rfl
  | cons top rest =>
      simp only [build_detection_result]
      repeat' split
      all_goals rfl

theorem analyze_mention_conf {name content comp s : Str} {cand : TreasurerCandidate}
    (h : analyze_treasurer_mention name content comp s = some cand) :
    (0.3 : ℚ) ≤ cand.confidence := by
  unfold analyze_treasurer_mention at h
  split at h
  · exact absurd h (by simp)
  · rename_i hge
    have hcand := (Option.some.injEq _ _).mp h
    rw [← hcand]
    exact le_of_not_lt hge

theorem analyze_source_conf {re : ReEnv} {env : NameEnv}
    {content comp s : Str} {l : List TreasurerCandidate}
    {cand : TreasurerCandidate}
    (hl : analyze_source_for_candidates re env content comp s = Except.ok l)
    (h : cand ∈ l) :
    (0.3 : ℚ) ≤ cand.confidence := by
  unfold analyze_source_for_candidates at hl
  split at hl
  · cases hl
    simp at h
  · split at hl
    · cases hl
    · cases hl
      obtain ⟨nm, _, heq⟩ := List.mem_filterMap.mp h
      exact analyze_mention_conf heq

theorem perSourcePairs_conf {re : ReEnv} {env : NameEnv} {company : Str} :
    ∀ {sources : List (Str × Str)} {pairs : List (Str × TreasurerCandidate)},
      perSourcePairs re env company sources = Except.ok pairs →
      ∀ p ∈ pairs, (0.3 : ℚ) ≤ p.2.confidence := by
  intro sources
  induction sources with
  | nil =>
      intro pairs hp p hmem
      cases hp
      simp at hmem
  | cons sc rest ih =>
      intro pairs hp p hmem
      unfold perSourcePairs at hp
      split at hp
      · exact ih hp p hmem
      · split at hp
        · cases hp
        · rename_i cands hcands
          split at hp
          · cases hp
          · rename_i tail htail
            cases hp
            rcases List.mem_append.mp hmem with hmem1 | hmem2
            · obtain ⟨c, hc, heq⟩ := List.mem_map.mp hmem1
              have hpc : p.2 = c := by rw [← heq]
              rw [hpc]
              exact analyze_source_conf hcands hc
            · exact ih htail p hmem2

/-- C10 (confirmed).  Every candidate in any detection result the pipeline
returns normally has confidence at least 0.3: `analyze_treasurer_mention`
returns `None` below 0.3 and the aggregator's merge only raises confidences
(maximum), so the floor — below the stated USABLE threshold 0.45 — is
preserved, for every regex oracle and validator environment. -/
theorem C10_confidence_floor (re : ReEnv) (env : NameEnv)
    (sources : List (Str × Str)) (company : Str) (r : TreasurerDetectionResult)
    (c : TreasurerCandidate)
    (hr : detect_from_sources re env sources company = Except.ok r)
    (hc : c ∈ r.candidates) :
    (0.3 : ℚ) ≤ c.confidence := by
  unfold detect_from_sources at hr
  split at hr
  · cases hr
  · rename_i cands hcands
    cases hr
    rw [build_candidates_eq] at hc
    unfold extract_candidates_from_sources at hcands
    split at hcands
    · cases hcands
    · rename_i pairs hpairs
      cases hcands
      refine aggregate_and_rank_all (P := fun x => (0.3 : ℚ) ≤ x.confidence) ?_ ?_ c hc
      · intro y s2 c2 hy
        rw [confidence_mergeEvidence]
        exact le_trans hy (le_qmax_left _ _)
      · intro p hp _
        exact perSourcePairs_conf hpairs p hp

/-- C10 (witness): the candidate produced from `janeBlob` sits at 0.88 and
the floor applies to it. -/
theorem C10_confidence_floor_witness : (0.3 : ℚ) ≤ janeCand.confidence :=
  C10_confidence_floor reJane envNone [(str "leadership_page", janeBlob)]
    (str "Acme Corp") janeResult janeCand (by with_unfolding_all decide)
    (by with_unfolding_all decide)

/-! #### Key-confidence characterization of the aggregator -/

theorem keyConf_cons (c : TreasurerCandidate) (l : List TreasurerCandidate)
    (k : Str) :
    keyConf (c :: l) k =
      if (nameKey c == k) = true then some c.confidence else keyConf l k := by
  cases h : (nameKey c == k) with
  | true => simp [keyConf, List.find?_cons, h]
  | false => simp [keyConf, List.find?_cons, h]

theorem omax_none (q : ℚ) : omax none q = some q := rfl

theorem omax_some (m q : ℚ) : omax (some m) q = some (qmax m q) := rfl

theorem keyConf_updateFirst (key s : Str) (cand : TreasurerCandidate) (k : Str) :
    ∀ l, keyConf (updateFirst key s cand l) k =
      if key = k then
        (keyConf l k).map (fun m => qmax m cand.confidence)
      else keyConf l k := by
  intro l
  induction l with
  | nil =>
      unfold updateFirst keyConf
      split <;> rfl
  | cons c rest ih =>
      unfold updateFirst
      split
      · rename_i hck
        rw [beq_iff_eq] at hck
        by_cases hk : key = k
        · have hmk : (nameKey (mergeEvidence c s cand) == k) = true := by
            rw [nameKey_mergeEvidence, beq_iff_eq, hck, hk]
          have hcvk : (nameKey c == k) = true := by rw [beq_iff_eq, hck, hk]
          rw [if_pos hk, keyConf_cons, keyConf_cons, if_pos hmk, if_pos hcvk,
            confidence_mergeEvidence]
          rfl
        · have hmk : (nameKey (mergeEvidence c s cand) == k) = false := by
            rw [nameKey_mergeEvidence]
            simpa [beq_iff_eq, hck] using hk
          have hcvk : (nameKey c == k) = false := by
            simpa [beq_iff_eq, hck] using hk
          rw [if_neg hk, keyConf_cons, keyConf_cons, hmk, hcvk]
          simp
      · rename_i hck
        rw [keyConf_cons, keyConf_cons]
        by_cases hcandk : (nameKey c == k) = true
        · rw [if_pos hcandk, if_pos hcandk]
          split
          · rename_i hk
            rw [beq_iff_eq] at hcandk
            exact absurd (by rw [hcandk, hk] : nameKey c = key) (by simpa using hck)
          · rfl
        · rw [if_neg hcandk, if_neg hcandk]
          exact ih

theorem keyConf_none_of_not_seen {acc : List TreasurerCandidate}
    {cand : TreasurerCandidate}
    (hseen : acc.any (fun c => nameKey c == nameKey cand) = false) :
    keyConf acc (nameKey cand) = none := by
  unfold keyConf
  rw [List.find?_eq_none.mpr]
  · rfl
  · intro x hx
    exact (List.any_eq_false.mp hseen) x hx

theorem keyConf_addCandidate (acc : List TreasurerCandidate) (s : Str)
    (cand : TreasurerCandidate) (k : Str) :
    keyConf (addCandidate acc s cand) k =
      if is_low_quality_name cand.name = false ∧ nameKey cand = k then
        omax (keyConf acc k) cand.confidence
      else keyConf acc k := by
  unfold addCandidate
  by_cases hlq : is_low_quality_name cand.name = true
  · rw [if_pos hlq, if_neg (by simp [hlq])]
  · have hlq' : is_low_quality_name cand.name = false := by simpa using hlq
    rw [if_neg hlq]
    by_cases hseen : acc.any (fun c => nameKey c == nameKey cand) = true
    · rw [if_pos hseen, keyConf_updateFirst]
      by_cases hk : nameKey cand = k
      · rw [if_pos hk, if_pos ⟨hlq', hk⟩]
        obtain ⟨x, hx, hxk⟩ := List.any_eq_true.mp hseen
        have hsome : (acc.find? (fun c => nameKey c == k)).isSome :=
          List.find?_isSome.mpr ⟨x, hx, by rw [beq_iff_eq] at hxk ⊢; rw [hxk, hk]⟩
        obtain ⟨c0, hc0⟩ := Option.isSome_iff_exists.mp hsome
        unfold keyConf
        rw [hc0]
        rfl
      · rw [if_neg hk, if_neg (fun hh => hk hh.2)]
    · rw [if_neg hseen]
      have hseen' : acc.any (fun c => nameKey c == nameKey cand) = false := by
        simpa using hseen
      by_cases hk : nameKey cand = k
      · have hnone : keyConf acc k = none := by
          rw [← hk]; exact keyConf_none_of_not_seen hseen'
        have hfn : acc.find? (fun c => nameKey c == k) = none := by
          cases hfa : acc.find? (fun c => nameKey c == k) with
          | none => rfl
          | some c0 =>
              unfold keyConf at hnone
              rw [hfa] at hnone
              simp at hnone
        have hck : (nameKey cand == k) = true := beq_iff_eq.mpr hk
        rw [if_pos ⟨hlq', hk⟩, hnone, omax_none]
        unfold keyConf
        rw [List.find?_append, hfn, Option.none_or]
        simp [List.find?_cons, hck]
      · have hck : (nameKey cand == k) = false := by
          simpa [beq_iff_eq] using hk
        rw [if_neg (fun hh => hk hh.2)]
        unfold keyConf
        rw [List.find?_append]
        simp [List.find?_cons, hck]

theorem keyConf_foldl :
    ∀ (pairs : List (Str × TreasurerCandidate)) (acc : List TreasurerCandidate) (k : Str),
      keyConf (List.foldl (fun a p => addCandidate a p.1 p.2) acc pairs) k =
        foldMaxConf pairs k (keyConf acc k) := by
  intro pairs
  induction pairs with
  | nil => intro acc k; rfl
  | cons p rest ih =>
      intro acc k
      rw [List.foldl_cons, ih]
      unfold foldMaxConf
      rw [List.foldl_cons, keyConf_addCandidate]

theorem keyConf_aggregatePairs (pairs : List (Str × TreasurerCandidate)) (k : Str) :
    keyConf (aggregatePairs pairs) k = foldMaxConf pairs k none := by
  unfold aggregatePairs
  rw [keyConf_foldl]
  rfl

theorem keysUnique_addCandidate {acc : List TreasurerCandidate} {s : Str}
    {cand : TreasurerCandidate} (hu : keysUnique acc) :
    keysUnique (addCandidate acc s cand) := by
  unfold addCandidate
  split
  · exact hu
  · split
    · unfold keysUnique at hu ⊢
      rw [updateFirst_map_nameKey]
      exact hu
    · rename_i hseen
      have hseen' : acc.any (fun c => nameKey c == nameKey cand) = false := by
        simpa using hseen
      unfold keysUnique at hu ⊢
      rw [List.map_append]
      rw [List.pairwise_append]
      refine ⟨hu, by simp, ?_⟩
      intro a ha b hb
      simp only [List.map_cons, List.map_nil, List.mem_singleton] at hb
      obtain ⟨x, hx, hxa⟩ := List.mem_map.mp ha
      rw [hb, ← hxa]
      intro heq
      have hfalse := List.any_eq_false.mp hseen' x hx
      exact hfalse (beq_iff_eq.mpr heq)

theorem keysUnique_aggregatePairs (pairs : List (Str × TreasurerCandidate)) :
    keysUnique (aggregatePairs pairs) := by
  unfold aggregatePairs
  suffices h : ∀ (ps : List (Str × TreasurerCandidate)) (acc : List TreasurerCandidate),
      keysUnique acc → keysUnique (List.foldl (fun a p => addCandidate a p.1 p.2) acc ps) by
    exact h pairs [] (by unfold keysUnique; simp)
  intro ps
  induction ps with
  | nil => intro acc hu; exact hu
  | cons p rest ih =>
      intro acc hu
      rw [List.foldl_cons]
      exact ih _ (keysUnique_addCandidate hu)

theorem eq_of_keysUnique {l : List TreasurerCandidate} (hu : keysUnique l)
    {a b : TreasurerCandidate} (ha : a ∈ l) (hb : b ∈ l)
    (hk : nameKey a = nameKey b) : a = b := by
  unfold keysUnique at hu
  induction l with
  | nil => simp at ha
  | cons c rest ih =>
      rw [List.map_cons, List.pairwise_cons] at hu
      rcases List.mem_cons.mp ha with ha1 | ha1 <;>
        rcases List.mem_cons.mp hb with hb1 | hb1
      · rw [ha1, hb1]
      · exfalso
        exact hu.1 (nameKey b) (List.mem_map_of_mem nameKey hb1) (by rw [← ha1, hk])
      · exfalso
        exact hu.1 (nameKey a) (List.mem_map_of_mem nameKey ha1) (by rw [← hb1, ← hk])
      · exact ih hu.2 ha1 hb1

theorem keyConf_perm {l1 l2 : List TreasurerCandidate} (h : l1.Perm l2)
    (hu : keysUnique l1) (k : Str) : keyConf l1 k = keyConf l2 k := by
  cases hf : l1.find? (fun c => nameKey c == k) with
  | none =>
      have h2 : l2.find? (fun c => nameKey c == k) = none := by
        rw [List.find?_eq_none] at hf ⊢
        intro x hx
        exact hf x (h.mem_iff.mpr hx)
      unfold keyConf
      rw [hf, h2]
  | some c =>
      have hc1 : c ∈ l1 := List.mem_of_find?_eq_some hf
      have hck := List.find?_some hf
      have hsome : (l2.find? (fun c => nameKey c == k)).isSome :=
        List.find?_isSome.mpr ⟨c, h.mem_iff.mp hc1, hck⟩
      obtain ⟨c2, hf2⟩ := Option.isSome_iff_exists.mp hsome
      have hc2 : c2 ∈ l1 := h.mem_iff.mpr (List.mem_of_find?_eq_some hf2)
      have hc2k := List.find?_some hf2
      have hcc : c = c2 := by
        refine eq_of_keysUnique hu hc1 hc2 ?_
        rw [beq_iff_eq] at hck hc2k
        rw [hck, hc2k]
      unfold keyConf
      rw [hf, hf2, hcc]

theorem keyConf_aggregate_and_rank (pairs : List (Str × TreasurerCandidate)) (k : Str) :
    keyConf (aggregate_and_rank pairs) k = foldMaxConf pairs k none := by
  unfold aggregate_and_rank pyStableSortDesc
  rw [← keyConf_perm (List.perm_insertionSort _ _).symm (keysUnique_aggregatePairs pairs) k]
  exact keyConf_aggregatePairs pairs k

theorem omax_right_comm (z : Option ℚ) (q1 q2 : ℚ) :
    omax (omax z q1) q2 = omax (omax z q2) q1 := by
  cases z with
  | none =>
      rw [omax_none, omax_none, omax_some, omax_some, qmax_eq_max, qmax_eq_max,
        max_comm]
  | some m =>
      rw [omax_some, omax_some, omax_some, omax_some]
      simp only [qmax_eq_max]
      rw [max_assoc, max_comm q1 q2, ← max_assoc]

/-- C6 (counterexample).  Aggregation is not order-independent: merging the
same two duplicate-name candidates in the two possible orders yields
different candidate records (the retained source, evidence, and issue list
come from whichever was seen first). -/
theorem C6_counterexample :
    aggregate_and_rank [(str "s1", dupCandA), (str "s2", dupCandB)] ≠
    aggregate_and_rank [(str "s2", dupCandB), (str "s1", dupCandA)] := by
  with_unfolding_all decide

/-- C6 (amended).  What *is* order-independent is the merged confidence per
normalized name: for every permutation of the (source, candidate) stream the
aggregated-and-ranked output records the same confidence for every key (the
maximum over that key's non-low-quality occurrences). -/
theorem C6_key_confidence_order_independent
    (pairs1 pairs2 : List (Str × TreasurerCandidate))
    (h : pairs1.Perm pairs2) (k : Str) :
    keyConf (aggregate_and_rank pairs1) k = keyConf (aggregate_and_rank pairs2) k := by
  rw [keyConf_aggregate_and_rank, keyConf_aggregate_and_rank]
  unfold foldMaxConf
  refine h.foldl_eq' ?_ none
  intro x _ y _ z
  split_ifs <;>
    first
      | rfl
      | exact omax_right_comm z x.2.confidence y.2.confidence

/-- C6 (witness for the amended theorem): the two orders of the duplicate
fixtures agree on the merged confidence of their shared key. -/
theorem C6_key_confidence_order_independent_witness :
    keyConf (aggregate_and_rank [(str "s1", dupCandA), (str "s2", dupCandB)])
      (str "john smith") =
    keyConf (aggregate_and_rank [(str "s2", dupCandB), (str "s1", dupCandA)])
      (str "john smith") :=
  C6_key_confidence_order_independent _ _
    (List.Perm.swap (str "s2", dupCandB) (str "s1", dupCandA) []) (str "john smith")

/-! #### C4: only the low-quality-name condition drops candidates -/

theorem foldMaxConf_some_le :
    ∀ (pairs : List (Str × TreasurerCandidate)) (k : Str) (q0 : ℚ),
      ∃ q, foldMaxConf pairs k (some q0) = some q ∧ q0 ≤ q := by
  intro pairs
  induction pairs with
  | nil => intro k q0; exact ⟨q0, rfl, le_refl _⟩
  | cons p rest ih =>
      intro k q0
      unfold foldMaxConf
      rw [List.foldl_cons]
      by_cases hp : is_low_quality_name p.2.name = false ∧ nameKey p.2 = k
      · rw [if_pos hp]
        obtain ⟨q, hq, hle⟩ := ih k (qmax q0 p.2.confidence)
        exact ⟨q, hq, le_trans (le_qmax_left _ _) hle⟩
      · rw [if_neg hp]
        exact ih k q0

theorem foldMaxConf_mem_le :
    ∀ (pairs : List (Str × TreasurerCandidate)) (k : Str)
      (init : Option ℚ) (p : Str × TreasurerCandidate),
      p ∈ pairs → is_low_quality_name p.2.name = false → nameKey p.2 = k →
      ∃ q, foldMaxConf pairs k init = some q ∧ p.2.confidence ≤ q := by
  intro pairs
  induction pairs with
  | nil => intro k init p hp; simp at hp
  | cons hd rest ih =>
      intro k init p hp hlq hk
      unfold foldMaxConf
      rw [List.foldl_cons]
      rcases List.mem_cons.mp hp with hp1 | hp1
      · rw [← hp1] at *
        rw [if_pos ⟨hlq, hk⟩]
        cases init with
        | none =>
            obtain ⟨q, hq, hle⟩ := foldMaxConf_some_le rest k p.2.confidence
            exact ⟨q, hq, hle⟩
        | some m =>
            obtain ⟨q, hq, hle⟩ := foldMaxConf_some_le rest k (qmax m p.2.confidence)
            exact ⟨q, hq, le_trans (le_qmax_right _ _) hle⟩
      · by_cases hcond : is_low_quality_name hd.2.name = false ∧ nameKey hd.2 = k
        · rw [if_pos hcond]
          exact ih k _ p hp1 hlq hk
        · rw [if_neg hcond]
          exact ih k _ p hp1 hlq hk

/-- C4 (counterexample).  "Annual Report" is extracted and scored by
`analyze_source_for_candidates` (confidence 0.68), yet
`extract_candidates_from_sources` drops it outright because the
low-quality-name condition holds of it — issue conditions are not purely
descriptive. -/
theorem C4_counterexample :
    (analyze_source_for_candidates reLowQuality envNone lowQualityBlob
      (str "Acme Corp") (str "leadership_page")).map
        (fun l => l.map (fun c => c.name)) =
        Except.ok [str "Annual Report"] ∧
    extract_candidates_from_sources reLowQuality envNone
      [(str "leadership_page", lowQualityBlob)] (str "Acme Corp") =
        Except.ok [] ∧
    is_low_quality_name (str "Annual Report") = true := by
  refine ⟨by with_unfolding_all decide, by with_unfolding_all decide, by decide⟩

/-- C4 (amended).  The aggregation loop drops exactly the candidates whose
name satisfies the low-quality-name condition: every retained candidate has a
non-low-quality name, and every scored candidate whose name is not
low-quality is retained under its key with at least its confidence.  All
other issue conditions only contribute score penalties. -/
theorem C4_low_quality_is_the_only_drop (pairs : List (Str × TreasurerCandidate)) :
    ((aggregate_and_rank pairs).all (fun c => !is_low_quality_name c.name) = true) ∧
    (∀ p ∈ pairs, is_low_quality_name p.2.name = false →
      ∃ c ∈ aggregate_and_rank pairs,
        nameKey c = nameKey p.2 ∧ p.2.confidence ≤ c.confidence) := by
  constructor
  · rw [List.all_eq_true]
    intro c hc
    have := aggregate_and_rank_all
      (P := fun x => is_low_quality_name x.name = false)
      (fun y s2 c2 hy => by
        show is_low_quality_name (mergeEvidence y s2 c2).name = false
        exact hy)
      (fun p _ hp => hp) c hc
    simp [this]
  · intro p hp hlq
    obtain ⟨q, hq, hle⟩ :=
      foldMaxConf_mem_le pairs (nameKey p.2) none p hp hlq rfl
    have hkc : keyConf (aggregate_and_rank pairs) (nameKey p.2) = some q := by
      rw [keyConf_aggregate_and_rank]
      exact hq
    unfold keyConf at hkc
    cases hf : (aggregate_and_rank pairs).find? (fun c => nameKey c == nameKey p.2) with
    | none => rw [hf] at hkc; simp at hkc
    | some c =>
        rw [hf] at hkc
        refine ⟨c, List.mem_of_find?_eq_some hf, ?_, ?_⟩
        · have := List.find?_some hf
          rwa [beq_iff_eq] at this
        · have : c.confidence = q := by
            simpa using hkc
          rw [this]
          exact hle

/-- C4 (witness for the amended theorem): the non-low-quality fixture is
retained with at least its confidence. -/
theorem C4_low_quality_is_the_only_drop_witness :
    ∃ c ∈ aggregate_and_rank [(str "s1", dupCandA)],
      nameKey c = nameKey dupCandA ∧ dupCandA.confidence ≤ c.confidence :=
  (C4_low_quality_is_the_only_drop [(str "s1", dupCandA)]).2
    (str "s1", dupCandA) (List.mem_cons_self _ _) (by decide)

/-! #### C8: facility-extraction error handling -/

theorem process_fails_shape {llm : Except Str Str} {loads : Str → Except Str JVal}
    (h : attemptFails llm loads) :
    ∃ e, process_with_llm llm loads = errorResult e := by
  unfold attemptFails at h
  cases llm with
  | error e => exact ⟨e, rfl⟩
  | ok raw =>
      have hred : process_with_llm (Except.ok raw) loads =
          (match find_json (pyStrip raw) with
           | none => errorResult (str "No JSON found in response")
           | some s =>
               match loads s with
               | Except.ok j => j
               | Except.error e => errorResult e) := rfl
      rcases h with hnone | ⟨s, e, hs, he⟩
      · rw [hred, hnone]
        exact ⟨str "No JSON found in response", rfl⟩
      · rw [hred, hs]
        show ∃ e2, (match loads s with
          | Except.ok j => j
          | Except.error er => errorResult er) = errorResult e2
        rw [he]
        exact ⟨e, rfl⟩

/-- C8 (confirmed).  When the language-model call or JSON parsing fails on
both the full-content attempt and the filtered fallback,
`extract_facilities_robust` returns a dictionary with empty "facilities" and
"notes" lists and an "error" entry — it is a total function, so no exception
propagates. -/
theorem C8_error_is_data (llm1 llm2 : Except Str Str)
    (loads : Str → Except Str JVal)
    (h1 : attemptFails llm1 loads) (h2 : attemptFails llm2 loads) :
    jget (extract_facilities_robust llm1 llm2 loads) (str "facilities") =
      some (.jarr []) ∧
    jget (extract_facilities_robust llm1 llm2 loads) (str "notes") =
      some (.jarr []) ∧
    ∃ e, jget (extract_facilities_robust llm1 llm2 loads) (str "error") =
      some (.jstr e) := by
  obtain ⟨e1, he1⟩ := process_fails_shape h1
  obtain ⟨e2, he2⟩ := process_fails_shape h2
  unfold extract_facilities_robust
  rw [he1, he2]
  split
  · exact ⟨rfl, rfl, e1, rfl⟩
  · exact ⟨rfl, rfl, e2, rfl⟩

/-- C8 (witness): both completion calls time out and the parser is never
consulted. -/
theorem C8_error_is_data_witness :
    jget (extract_facilities_robust (Except.error (str "timeout"))
      (Except.error (str "timeout"))
      (fun _ => Except.error (str "unused"))) (str "facilities") =
      some (JVal.jarr []) ∧
    jget (extract_facilities_robust (Except.error (str "timeout"))
      (Except.error (str "timeout"))
      (fun _ => Except.error (str "unused"))) (str "notes") =
      some (JVal.jarr []) ∧
    ∃ e, jget (extract_facilities_robust (Except.error (str "timeout"))
      (Except.error (str "timeout"))
      (fun _ => Except.error (str "unused"))) (str "error") =
      some (JVal.jstr e) :=
  C8_error_is_data (Except.error (str "timeout")) (Except.error (str "timeout"))
    (fun _ => Except.error (str "unused")) trivial trivial

/-! #### C5: scorer bounds -/

theorem qmin_eq_min (a b : ℚ) : qmin a b = min a b := by
  unfold qmin
  rw [min_def]

theorem clamp01_le {q b : ℚ} (hq : q ≤ b) (hb : 0 ≤ b) : clamp01 q ≤ b := by
  unfold clamp01
  rw [qmax_eq_max, qmin_eq_min]
  exact max_le hb (le_trans (min_le_right 1 q) hq)

theorem clamp01_ge {q b : ℚ} (hq : b ≤ q) (hb : b ≤ 1) : b ≤ clamp01 q := by
  unfold clamp01
  rw [qmax_eq_max, qmin_eq_min]
  exact le_trans (le_min hb hq) (le_max_right 0 _)

theorem ite_le_of_nonneg {c : Prop} [Decidable c] {v : ℚ} (hv : 0 ≤ v) :
    (if c then v else 0) ≤ v := by
  split
  · exact le_refl v
  · exact hv

theorem ite_nonneg {c : Prop} [Decidable c] {v : ℚ} (hv : 0 ≤ v) :
    (0 : ℚ) ≤ (if c then v else 0) := by
  split
  · exact hv
  · exact le_refl 0

theorem lower_append (a b : Str) : lower (a ++ b) = lower a ++ lower b :=
  List.map_append Char.toLower a b

theorem namePenalty_nonneg (name : Str) : 0 ≤ namePenalty name := by
  unfold namePenalty
  split_ifs <;> norm_num

theorem namePenalty_le (name : Str) : namePenalty name ≤ 0.35 := by
  unfold namePenalty
  split_ifs <;> norm_num

/-- The tail of the leadership context behind the name: `.*treasurer` matches
it in exactly one way, for every previous-character state. -/
theorem runs_tail_treasurer (p : Option Char) :
    runs [RTok.dotStar, RTok.lit (str "treasurer")]
      (str " serves as treasurer since 2023") p =
      [(str " since 2023", some (Char.ofNat 114))] := rfl

/-- The leading literal name segment of the first context pattern consumes
itself off the front of the leadership phrase, and the tail matches in the
single way above — for every name. -/
theorem runs_lead_pattern (nl : Str) :
    runs (interDotStar [nl, str "treasurer"])
      (nl ++ str " serves as treasurer since 2023") none =
      [(str " since 2023", some (Char.ofNat 114))] := by
  have hpre : nl.isPrefixOf (nl ++ str " serves as treasurer since 2023") = true :=
    List.isPrefixOf_iff_prefix.mpr (List.prefix_append _ _)
  show (stepTok (RTok.lit nl) (nl ++ str " serves as treasurer since 2023") none).flatMap
      (fun sp => runs [RTok.dotStar, RTok.lit (str "treasurer")] sp.1 sp.2) =
      [(str " since 2023", some (Char.ofNat 114))]
  rw [show stepTok (RTok.lit nl) (nl ++ str " serves as treasurer since 2023") none =
      [((nl ++ str " serves as treasurer since 2023").drop nl.length,
        if nl.isEmpty then none else nl.getLast?)] from by
    simp [stepTok, hpre]]
  rw [List.drop_left]
  rw [List.flatMap_cons, List.flatMap_nil, List.append_nil]
  rw [runs_tail_treasurer]

/-- The leadership context always satisfies `_is_proper_treasurer_context`
for its own name: the first context pattern `name.*treasurer` matches
`name ++ " serves as treasurer since 2023"` whatever the name is. -/
theorem proper_ctx_always (name : Str) :
    is_proper_treasurer_context name (leadershipCtx name) = true := by
  have hl : lower (leadershipCtx name) =
      lower name ++ str " serves as treasurer since 2023" := by
    unfold leadershipCtx
    rw [lower_append]
    rfl
  have h0 : (!(runs (interDotStar [lower name, str "treasurer"])
      ((lower name ++ str " serves as treasurer since 2023").drop 0)
      (prevCharAt (lower name ++ str " serves as treasurer since 2023") 0)).isEmpty) = true := by
    show (!(runs (interDotStar [lower name, str "treasurer"])
      (lower name ++ str " serves as treasurer since 2023") none).isEmpty) = true
    rw [runs_lead_pattern]
    rfl
  have hx : reSearch (interDotStar [lower name, str "treasurer"])
      (lower (leadershipCtx name)) = true := by
    rw [hl]
    unfold reSearch
    exact List.any_of_mem (List.mem_range.mpr (Nat.succ_pos _)) h0
  unfold is_proper_treasurer_context
  have h1 : (properCtxPatterns (lower name)).any
      (fun segs => reSearch (interDotStar segs) (lower (leadershipCtx name))) = true := by
    unfold properCtxPatterns
    simp only [List.any_cons]
    rw [hx]
    rfl
  rw [h1]
  rfl

/-- Upper bound of the scorer on a secondary-search candidate whose context
carries no date phrasing: at most 0.79 minus the (shared) name penalties,
before clipping. -/
theorem rawConfidence_B_le (name ctxB : Str)
    (hsince : containsSub (lower ctxB) (str "since") = false) :
    rawConfidence name ctxB (str "company_treasury_search") ≤
      0.79 - namePenalty name := by
  unfold rawConfidence namePenalty
  have hsf : sourceFactor (str "company_treasury_search") = 0.05 := by
    with_unfolding_all rfl
  rw [hsf]
  have h1 : (if (containsSub (lower ctxB) (str "current") ||
      containsSub (lower ctxB) (str "serves as")) = true then (0.10:ℚ) else 0) ≤ 0.10 :=
    ite_le_of_nonneg (by norm_num)
  have h2 : (if containsSub (lower ctxB) (str "assistant treasurer") = true
      then (0.08:ℚ) else 0) ≤ 0.08 := ite_le_of_nonneg (by norm_num)
  have h3 : (if (containsSub (lower ctxB) (str "treasurer") &&
      containsSub (lower ctxB) (str "since")) = true then (0.15:ℚ) else 0) = 0 := by
    rw [hsince, Bool.and_false]
    simp
  have h4 : (if (containsSub (lower ctxB) (str "appointed") &&
      containsSub (lower ctxB) (str "treasurer")) = true then (0.12:ℚ) else 0) ≤ 0.12 :=
    ite_le_of_nonneg (by norm_num)
  have h5 : (if ([str "executive", str "officer", str "management"].any
      (fun w => containsSub (lower ctxB) w)) = true then (0.03:ℚ) else 0) ≤ 0.03 :=
    ite_le_of_nonneg (by norm_num)
  have h6 : (if (str "company_treasury_search" == str "leadership_page") = true
      then (0.10:ℚ) else 0) = 0 := by
    rw [show (str "company_treasury_search" == str "leadership_page") = false by decide]
    simp
  have h7 : (if is_proper_treasurer_context name ctxB = true then (0.20:ℚ) else 0) ≤ 0.20 :=
    ite_le_of_nonneg (by norm_num)
  have h8 : (0:ℚ) ≤ (if is_outdated_info ctxB = true then (0.08:ℚ) else 0) :=
    ite_nonneg (by norm_num)
  have h9 : (0:ℚ) ≤ (if is_definitely_outdated ctxB = true then (0.25:ℚ) else 0) :=
    ite_nonneg (by norm_num)
  have h10 : (0:ℚ) ≤ (if containsSub (lower ctxB) (str "linkedin") = true
      then (0.02:ℚ) else 0) := ite_nonneg (by norm_num)
  have h11 : (0:ℚ) ≤ (if ([str "former", str "past", str "previous", str "until"].any
      (fun w => containsSub (lower ctxB) w)) = true then (0.12:ℚ) else 0) :=
    ite_nonneg (by norm_num)
  have h12 : (0:ℚ) ≤ (if (containsSub (lower ctxB) (str "cfo") &&
      containsSub (lower ctxB) (str "treasurer")) = true then (0.03:ℚ) else 0) :=
    ite_nonneg (by norm_num)
  have h13 : (if (memStr [str "treasurer_search", str "company_treasury_search"]
      (str "company_treasury_search")) = true then (0.02:ℚ) else 0) = 0.02 := by
    rw [show (memStr [str "treasurer_search", str "company_treasury_search"]
      (str "company_treasury_search")) = true by decide]
    simp
  have h14 : (if is_high_quality_name name ctxB = true then (0.08:ℚ) else 0) ≤ 0.08 :=
    ite_le_of_nonneg (by norm_num)
  rw [h3, h6, h13]
  linarith

/-- Lower bound of the scorer on the official-page candidate with the dated
"serves as Treasurer since 2023" phrasing: at least 0.82 minus the (shared)
name penalties, before clipping.  Only the two context cues that the name can
smuggle into the leadership phrase and that are not absorbed by the margin —
a definitely-outdated phrase and a former/past/previous/until token — are
excluded; the remaining name-dependent context penalties (outdated wording,
"linkedin", "cfo", at most 0.13 together) are absorbed. -/
theorem rawConfidence_A_ge (name : Str)
    (hdo : is_definitely_outdated (leadershipCtx name) = false)
    (hfp : ([str "former", str "past", str "previous", str "until"].any
      (fun w => containsSub (lower (leadershipCtx name)) w)) = false) :
    0.82 - namePenalty name ≤
      rawConfidence name (leadershipCtx name) (str "leadership_page") := by
  have hlsuffix : lower (leadershipCtx name) =
      lower name ++ str " serves as treasurer since 2023" := by
    unfold leadershipCtx
    rw [lower_append]
    rfl
  have hserves : containsSub (lower (leadershipCtx name)) (str "serves as") = true := by
    rw [hlsuffix]
    exact containsSub_append_right (by decide)
  have htreas : containsSub (lower (leadershipCtx name)) (str "treasurer") = true := by
    rw [hlsuffix]
    exact containsSub_append_right (by decide)
  have hsince : containsSub (lower (leadershipCtx name)) (str "since") = true := by
    rw [hlsuffix]
    exact containsSub_append_right (by decide)
  unfold rawConfidence namePenalty
  have hsf : sourceFactor (str "leadership_page") = 0.25 := by
    with_unfolding_all rfl
  rw [hsf]
  have h1 : (if (containsSub (lower (leadershipCtx name)) (str "current") ||
      containsSub (lower (leadershipCtx name)) (str "serves as")) = true
      then (0.10:ℚ) else 0) = 0.10 := by
    rw [hserves, Bool.or_true]
    simp
  have h2 : (0:ℚ) ≤ (if containsSub (lower (leadershipCtx name)) (str "assistant treasurer") = true
      then (0.08:ℚ) else 0) := ite_nonneg (by norm_num)
  have h3 : (if (containsSub (lower (leadershipCtx name)) (str "treasurer") &&
      containsSub (lower (leadershipCtx name)) (str "since")) = true
      then (0.15:ℚ) else 0) = 0.15 := by
    rw [htreas, hsince]
    simp
  have h4 : (0:ℚ) ≤ (if (containsSub (lower (leadershipCtx name)) (str "appointed") &&
      containsSub (lower (leadershipCtx name)) (str "treasurer")) = true
      then (0.12:ℚ) else 0) := ite_nonneg (by norm_num)
  have h5 : (0:ℚ) ≤ (if ([str "executive", str "officer", str "management"].any
      (fun w => containsSub (lower (leadershipCtx name)) w)) = true
      then (0.03:ℚ) else 0) := ite_nonneg (by norm_num)
  have h6 : (if (str "leadership_page" == str "leadership_page") = true
      then (0.10:ℚ) else 0) = 0.10 := by
    rw [show (str "leadership_page" == str "leadership_page") = true by decide]
    simp
  have h7 : (if is_proper_treasurer_context name (leadershipCtx name) = true
      then (0.20:ℚ) else 0) = 0.20 := by
    rw [proper_ctx_always name]
    simp
  have h8 : (if is_outdated_info (leadershipCtx name) = true
      then (0.08:ℚ) else 0) ≤ 0.08 := ite_le_of_nonneg (by norm_num)
  have h9 : (if is_definitely_outdated (leadershipCtx name) = true
      then (0.25:ℚ) else 0) = 0 := by
    rw [hdo]
    simp
  have h10 : (if containsSub (lower (leadershipCtx name)) (str "linkedin") = true
      then (0.02:ℚ) else 0) ≤ 0.02 := ite_le_of_nonneg (by norm_num)
  have h11 : (if ([str "former", str "past", str "previous", str "until"].any
      (fun w => containsSub (lower (leadershipCtx name)) w)) = true
      then (0.12:ℚ) else 0) = 0 := by
    rw [hfp]
    simp
  have h12 : (if (containsSub (lower (leadershipCtx name)) (str "cfo") &&
      containsSub (lower (leadershipCtx name)) (str "treasurer")) = true
      then (0.03:ℚ) else 0) ≤ 0.03 := ite_le_of_nonneg (by norm_num)
  have h13 : (if (memStr [str "treasurer_search", str "company_treasury_search"]
      (str "leadership_page")) = true then (0.02:ℚ) else 0) = 0 := by
    rw [show (memStr [str "treasurer_search", str "company_treasury_search"]
      (str "leadership_page")) = false by decide]
    simp
  have h14 : (0:ℚ) ≤ (if is_high_quality_name name (leadershipCtx name) = true
      then (0.08:ℚ) else 0) := ite_nonneg (by norm_num)
  rw [h1, h3, h6, h7, h9, h11, h13]
  linarith

/-- C5 (counterexample).  The claim quantifies over *every* fixed name, but
the scorer's context cues read the name's own words: for the name
"Former Treasurer Linkedin", the dated leadership context
"Former Treasurer Linkedin serves as Treasurer since 2023" contains
"former treasurer" (outdated −0.08 and definitely-outdated −0.25), "former"
(−0.12) and "linkedin" (−0.02), scoring 0.28, while the same name on the
secondary channel with the date-free context
"current assistant treasurer appointed executive" scores 0.31 — strictly
higher, refuting the claimed strict inequality. -/
theorem C5_counterexample :
    containsSub (lower (str "current assistant treasurer appointed executive"))
      (str "since") = false ∧
    (assess_candidate_confidence (str "Former Treasurer Linkedin")
      (leadershipCtx (str "Former Treasurer Linkedin"))
      (str "leadership_page")).1 <
    (assess_candidate_confidence (str "Former Treasurer Linkedin")
      (str "current assistant treasurer appointed executive")
      (str "company_treasury_search")).1 := by
  refine ⟨by decide, by with_unfolding_all decide⟩

/-- C5 (amended).  The dated leadership-page score beats every date-free
secondary-search score for the same name whenever the name does not smuggle
a definitely-outdated phrase or a former/past/previous/until token into the
leadership phrase.  The two context-independent name penalties (low-quality
name −0.20, business-entity token −0.15) hit both sides identically and
cancel, so ordinary multi-word person names and even business-entity-flagged
names are covered: leadership side at least 0.82 minus those penalties,
secondary side at most 0.79 minus the same penalties. -/
theorem C5_leadership_dated_beats_secondary (name ctxB : Str)
    (hdo : is_definitely_outdated (leadershipCtx name) = false)
    (hfp : ([str "former", str "past", str "previous", str "until"].any
      (fun w => containsSub (lower (leadershipCtx name)) w)) = false)
    (hsince : containsSub (lower ctxB) (str "since") = false) :
    (assess_candidate_confidence name ctxB (str "company_treasury_search")).1 <
      (assess_candidate_confidence name (leadershipCtx name) (str "leadership_page")).1 := by
  have hP0 : 0 ≤ namePenalty name := namePenalty_nonneg name
  have hPle : namePenalty name ≤ 0.35 := namePenalty_le name
  have hB : (assess_candidate_confidence name ctxB (str "company_treasury_search")).1 ≤
      0.79 - namePenalty name := by
    show clamp01 (rawConfidence name ctxB (str "company_treasury_search")) ≤
      0.79 - namePenalty name
    exact clamp01_le (rawConfidence_B_le name ctxB hsince) (by linarith)
  have hA : 0.82 - namePenalty name ≤
      (assess_candidate_confidence name (leadershipCtx name) (str "leadership_page")).1 := by
    show 0.82 - namePenalty name ≤
      clamp01 (rawConfidence name (leadershipCtx name) (str "leadership_page"))
    exact clamp01_ge (rawConfidence_A_ge name hdo hfp) (by linarith)
  linarith

/-- C5 (witness for the amended theorem): the bound applies to "Jane Doe"
against an undated secondary-search snippet. -/
theorem C5_leadership_dated_beats_secondary_witness :
    (assess_candidate_confidence (str "Jane Doe")
      (str "Jane Doe, treasurer at Acme Corp") (str "company_treasury_search")).1 <
    (assess_candidate_confidence (str "Jane Doe")
      (leadershipCtx (str "Jane Doe")) (str "leadership_page")).1 :=
  C5_leadership_dated_beats_secondary (str "Jane Doe")
    (str "Jane Doe, treasurer at Acme Corp") (by decide) (by decide) (by decide)

end Screening
